import Mathlib

set_option maxRecDepth 40000

/-!
Verification development for the memory-matching game (`script.js`, given as
`src/unnamed/part_000`) and the session-authenticated CRUD server
(`src/server.js`) of this repository.

The browser script is shallowly embedded as a state machine:

* every module-level variable of the script (`firstCard`, `secondCard`,
  `hasFlipped`, `lockBoard`, `clickCount`, `pairsMatched`, `pairsLeft`,
  `totalPairs`, `timer`/`timeLeft`, the rendered board, the message banner,
  the three buttons' disabled flags) is a field of `GameState`;
* every handler of the script (`onCardClick`, `checkMatch`, `resetFlip`,
  `endGame`, the `startTimer` tick, `handlePowerUp`, `startGame`,
  `resetGame`) is a Lean function on `GameState`, translated line by line;
* DOM card elements are board slots; object identity of a card node is the
  pair (board generation, index): `renderBoard` and `resetGame` replace the
  board's nodes, which is modelled by bumping a generation counter, so a
  reference held from before the replacement is stale and its class-list
  operations no longer touch the current board (the detached old nodes are
  never rendered again);
* `setTimeout`/`setInterval` callbacks that are pending (the 800 ms mismatch
  revert, the power-up reveal end, the power-up cooldown interval) are
  explicit `Task` values in a task list, fired nondeterministically by the
  step relation, which models arbitrary timing; the countdown interval
  started by `startTimer` is the `timerRunning` flag plus the `tick` step.

The event loop is single-threaded, so each handler runs atomically: one
`Step` of the machine is one handler invocation or one timer callback.
-/

namespace MatchGame

/-- A card template fetched from the API: `fetchPokemon` returns
`{ name, img }` (part_000 lines 52-60). -/
structure Poke where
  name : String
  img : String
deriving DecidableEq, Repr

/-- `generateDeck` (part_000 lines 62-66): duplicates every fetched template,
`pokes.flatMap(p => ([{...p},{...p}]))`.  The random distinct ids and the
fetches themselves are external; the fetched templates are the argument. -/
def generateDeck (pokes : List Poke) : List Poke :=
  pokes.flatMap (fun p => [p, p])

/-- One iteration of the Fisher-Yates loop body of `shuffle` (part_000
line 71): `[arr[i], arr[j]] = [arr[j], arr[i]]`.  The random index `j`
produced by `Math.floor(Math.random() * (i + 1))` is always in range, so the
out-of-range guard is never taken on real inputs. -/
def swapL (arr : List α) (i j : Nat) : List α :=
  match arr.get? i, arr.get? j with
  | some x, some y => (arr.set i y).set j x
  | _, _ => arr

/-- The `shuffle` loop (part_000 lines 68-73), running `i` from its first
value down to `1`, consuming one random index per iteration. -/
def fyAux : List α → Nat → List Nat → List α
  | arr, 0, _ => arr
  | arr, _ + 1, [] => arr
  | arr, i + 1, j :: js => fyAux (swapL arr (i + 1) j) i js

/-- `shuffle(arr)` (part_000 lines 68-73) with the stream `js` of random
indices made explicit: the loop starts at `i = arr.length - 1`. -/
def shuffle (arr : List α) (js : List Nat) : List α :=
  fyAux arr (arr.length - 1) js

/-- The random-index stream the browser produces for a Fisher-Yates run over
an array whose loop starts at `i`: one index per iteration, each uniform in
`0..i` (so `js[k] ≤ i - k`). -/
def ValidFor (i : Nat) (js : List Nat) : Prop :=
  js.length = i ∧ ∀ k (h : k < js.length), js.get ⟨k, h⟩ ≤ i - k

/-- Valid random streams for a full shuffle of `arr`. -/
def ValidJs (arr : List α) (js : List Nat) : Prop :=
  ValidFor (arr.length - 1) js

instance : DecidablePred (ValidFor i) := fun js => by
  unfold ValidFor; infer_instance

/-- The card instances actually rendered: `renderBoard` creates one fresh DOM
node per deck entry, so the instances are pairwise distinct objects even when
their template data coincide; tagging each entry with its position models
that object identity. -/
def deckInstances (pokes : List Poke) : List (Nat × Poke) :=
  (generateDeck pokes).enum

/-- A rendered card on the board: `dataset.name` plus its two class-list
flags `flip` and `match` (`matched` here).  The `img` sources are purely
presentational and are not part of any claim about the game dynamics. -/
structure Slot where
  name : String
  flip : Bool
  matched : Bool
deriving DecidableEq, Repr

/-- A reference to a card DOM node, as held in `firstCard`/`secondCard` and
captured by scheduled callbacks: the board generation it belongs to, its
index in that board, and its immutable `dataset.name`.  Two references are
the same node iff generation and index agree. -/
structure Ref where
  gen : Nat
  idx : Nat
  name : String
deriving DecidableEq, Repr

/-- A pending scheduled callback:
* `revert a b`   - the 800 ms `setTimeout` of the `checkMatch` mismatch
  branch (part_000 lines 126-130), holding the two card nodes it captured;
* `revealEnd g`  - the `REVEAL_TIME` `setTimeout` of `handlePowerUp`
  (lines 180-193), holding the `board.querySelectorAll` snapshot, i.e. the
  generation whose nodes it captured;
* `cooldown cd`  - the 1 s cooldown `setInterval` of `handlePowerUp`
  (lines 184-192) with its remaining `cd` counter. -/
inductive Task where
  | revert (a b : Ref)
  | revealEnd (g : Nat)
  | cooldown (cd : Nat)
deriving DecidableEq, Repr

/-- `COOLDOWN` (part_000 line 21). -/
def COOLDOWN : Nat := 30

/-- The module-level state of the script (part_000 lines 15-21) together
with the rendered board, the message banner and the buttons' disabled state.
`message = some true` is the win banner, `some false` the game-over banner
(set by `endGame`), `none` the hidden banner. -/
structure GameState where
  board : List Slot
  gen : Nat
  firstCard : Option Ref
  secondCard : Option Ref
  hasFlipped : Bool
  lockBoard : Bool
  clickCount : Nat
  pairsMatched : Nat
  pairsLeft : Nat
  totalPairs : Nat
  timerRunning : Bool
  timeLeft : Nat
  tasks : List Task
  message : Option Bool
  startEnabled : Bool
  resetEnabled : Bool
  powerEnabled : Bool
deriving DecidableEq, Repr

/-- The slot at index `i` (a total read used by statements; out-of-range
reads never occur on the guarded paths). -/
def boardGet (s : GameState) (i : Nat) : Slot :=
  (s.board.get? i).getD ⟨"", false, false⟩

/-- `resetFlip` (part_000 lines 108-111). -/
def resetFlip (s : GameState) : GameState :=
  { s with hasFlipped := false, lockBoard := false,
           firstCard := none, secondCard := none }

/-- `endGame(won)` (part_000 lines 93-107): stops the countdown interval,
shows the win or game-over banner, and locks the board. -/
def endGame (won : Bool) (s : GameState) : GameState :=
  { s with timerRunning := false, message := some won, lockBoard := true }

/-- One tick of the `startTimer` interval (part_000 lines 85-89):
`timeLeft--` then `if (timeLeft <= 0) endGame(false)`. -/
def timerTick (s : GameState) : GameState :=
  let s1 := { s with timeLeft := s.timeLeft - 1 }
  if s1.timeLeft = 0 then endGame false s1 else s1

/-- `classList.add('match')` on a held card reference: touches the current
board only when the reference's node belongs to the current generation. -/
def markRef (r : Ref) (g : Nat) (b : List Slot) : List Slot :=
  if r.gen = g then
    match b.get? r.idx with
    | some c => b.set r.idx { c with matched := true }
    | none => b
  else b

/-- `classList.remove('flip')` on a held card reference, same staleness
rule as `markRef`. -/
def unflipRef (r : Ref) (g : Nat) (b : List Slot) : List Slot :=
  if r.gen = g then
    match b.get? r.idx with
    | some c => b.set r.idx { c with flip := false }
    | none => b
  else b

/-- `checkMatch` (part_000 lines 113-132).  The match branch also removes the
two nodes' click listeners; behaviourally this is subsumed by the
`classList.contains('match')` guard of `onCardClick`, since a card's listener
is removed exactly when it gains the `match` class.  The wildcard row is
unreachable: `checkMatch` is only called right after `secondCard` is set,
with `firstCard` set as well. -/
def checkMatch (s : GameState) : GameState :=
  match s.firstCard, s.secondCard with
  | some f, some sc =>
    if f.name = sc.name then
      let b2 := markRef sc s.gen (markRef f s.gen s.board)
      let s1 := { s with board := b2,
                         pairsMatched := s.pairsMatched + 1,
                         pairsLeft := s.pairsLeft - 1 }
      let s2 := if s1.pairsMatched = s1.totalPairs then endGame true s1 else s1
      resetFlip s2
    else
      { s with tasks := Task.revert f sc :: s.tasks }
  | _, _ => s

/-- `onCardClick` (part_000 lines 134-151), clicking the card node at index
`i` of the current board.  `e.currentTarget` and `this` both denote that
node, since the handler is installed with `addEventListener` on the card.
An index with no node cannot be clicked; the `none` row is a harmless
totalisation. -/
def onCardClick (i : Nat) (s : GameState) : GameState :=
  if s.lockBoard then s
  else
    match s.board.get? i with
    | none => s
    | some c =>
      if s.firstCard = some ⟨s.gen, i, c.name⟩ then s
      else if c.matched then s
      else
        let s1 := { s with board := s.board.set i { c with flip := true } }
        if s.hasFlipped = false then
          { s1 with hasFlipped := true, firstCard := some ⟨s.gen, i, c.name⟩ }
        else
          checkMatch { s1 with secondCard := some ⟨s.gen, i, c.name⟩,
                               lockBoard := true,
                               clickCount := s.clickCount + 1 }

/-- `handlePowerUp` (part_000 lines 175-194): disables the button, adds
`flip` to every non-matched card of the current board, and schedules the
reveal-end timeout capturing the current board's nodes. -/
def handlePowerUp (s : GameState) : GameState :=
  { s with powerEnabled := false,
           board := s.board.map (fun c => if c.matched then c else { c with flip := true }),
           tasks := Task.revealEnd s.gen :: s.tasks }

/-- Firing one pending scheduled callback `t` (removing it from the pending
set):
* a mismatch revert (part_000 lines 126-130) removes `flip` from the two
  captured nodes and runs `resetFlip`;
* a reveal end (lines 180-193) removes `flip` from every non-matched card of
  the captured board snapshot - a no-op on the current board if that board
  has since been replaced - and starts the cooldown interval;
* a cooldown tick (lines 184-192) runs `cd--` and on `cd <= 0` stops the
  interval and re-enables the button (the button-label writes are purely
  presentational). -/
def fireTask (t : Task) (s : GameState) : GameState :=
  let s0 := { s with tasks := s.tasks.erase t }
  match t with
  | Task.revert a b =>
      resetFlip { s0 with board := unflipRef b s0.gen (unflipRef a s0.gen s0.board) }
  | Task.revealEnd g =>
      let b2 := if g = s0.gen then
                  s0.board.map (fun c => if c.matched then c else { c with flip := false })
                else s0.board
      { s0 with board := b2, tasks := Task.cooldown COOLDOWN :: s0.tasks }
  | Task.cooldown cd =>
      let cd2 := cd - 1
      if cd2 = 0 then { s0 with powerEnabled := true }
      else { s0 with tasks := Task.cooldown cd2 :: s0.tasks }

/-- The difficulty table of `startGame` (part_000 lines 205-208): pair
count from the `<select>` value, with anything other than `easy`/`medium`
falling through to the hard branch. -/
def pairsFor (diff : String) : Nat :=
  if diff = "easy" then 4 else if diff = "medium" then 8 else 12

/-- The time budget of `startGame` (part_000 lines 205-208). -/
def timeFor (diff : String) : Nat :=
  if diff = "easy" then 60 else if diff = "medium" then 120 else 180

/-- `startGame` (part_000 lines 197-220), run to completion: hides the
banner, zeroes `clickCount`/`pairsMatched`, resolves the difficulty, sets
`pairsLeft = totalPairs`, flips the three buttons, renders the freshly
generated and shuffled deck (replacing every card node: new generation), and
starts the countdown.  The awaited fetches only produce `pokes` and the
back-sprite URL (presentational).  Note it touches neither `hasFlipped`,
`lockBoard`, `firstCard`/`secondCard` nor any pending timeout. -/
def startGame (diff : String) (pokes : List Poke) (js : List Nat) (s : GameState) : GameState :=
  let p := pairsFor diff
  let deck := shuffle (generateDeck pokes) js
  { s with message := none,
           clickCount := 0,
           pairsMatched := 0,
           totalPairs := p,
           timeLeft := timeFor diff,
           pairsLeft := p,
           startEnabled := false,
           resetEnabled := true,
           powerEnabled := true,
           board := deck.map (fun q => ⟨q.name, false, false⟩),
           gen := s.gen + 1,
           timerRunning := true }

/-- `resetGame` (part_000 lines 222-235): stops the countdown interval,
empties the board (replacing its nodes: new generation), zeroes all four
counters and `timeLeft`, flips the buttons, hides the banner.  Note it
cancels no pending `setTimeout`/cooldown callback and leaves `hasFlipped`,
`lockBoard` and `firstCard`/`secondCard` untouched. -/
def resetGame (s : GameState) : GameState :=
  { s with timerRunning := false,
           board := [],
           gen := s.gen + 1,
           clickCount := 0,
           pairsMatched := 0,
           pairsLeft := 0,
           totalPairs := 0,
           timeLeft := 0,
           startEnabled := true,
           resetEnabled := false,
           powerEnabled := false,
           message := none }

/-- The page-load state: the script's variable initialisers (part_000 lines
16-19) give the empty selection, unlocked board and zeroed counters; the
board is empty and no callback is pending.  The initial disabled state of
the three buttons lives in the page markup, which is not among the sources;
it is modelled from the spec's lifecycle (a round can only be started from
`Idle`; reset and power-up act on a running round), matching what
`resetGame` re-establishes. -/
def initState : GameState where
  board := []
  gen := 0
  firstCard := none
  secondCard := none
  hasFlipped := false
  lockBoard := false
  clickCount := 0
  pairsMatched := 0
  pairsLeft := 0
  totalPairs := 0
  timerRunning := false
  timeLeft := 0
  tasks := []
  message := none
  startEnabled := true
  resetEnabled := false
  powerEnabled := false

/-- One event-loop turn: a click on a rendered card, a countdown tick (only
while the interval is running), the firing of one pending scheduled
callback, or one of the three button handlers (each gated by its button
being enabled, since a disabled button receives no click events).  The
`start` case runs the whole async `startGame` in one turn; the suspension
points of its two `await`s - and the extra countdown intervals that
overlapping `startGame` runs leak through them - are modelled explicitly by
`JState` and `AStep` below. -/
inductive Step : GameState → GameState → Prop
  | click (i : Nat) (s : GameState) : Step s (onCardClick i s)
  | tick (s : GameState) (h : s.timerRunning = true) : Step s (timerTick s)
  | fire (t : Task) (s : GameState) (h : t ∈ s.tasks) : Step s (fireTask t s)
  | start (diff : String) (pokes : List Poke) (js : List Nat) (s : GameState)
      (h : s.startEnabled = true) (hp : pokes.length = pairsFor diff) :
      Step s (startGame diff pokes js s)
  | reset (s : GameState) (h : s.resetEnabled = true) : Step s (resetGame s)
  | power (s : GameState) (h : s.powerEnabled = true) : Step s (handlePowerUp s)

/-- States the script can reach from page load. -/
def Reachable (s : GameState) : Prop :=
  Relation.ReflTransGen Step initState s

/-- Whether the board position `i` holds a card that is face-up (`flip`)
and not yet matched. -/
def fuAt (s : GameState) (i : Nat) : Bool :=
  (boardGet s i).flip && !(boardGet s i).matched

/-- The board positions holding a face-up, non-matched card. -/
def fuIdx (s : GameState) : List Nat :=
  (List.range s.board.length).filter (fun i => fuAt s i)

/-- How many cards are simultaneously face-up and not matched. -/
def fuCount (s : GameState) : Nat :=
  (fuIdx s).length

/-- No power-up reveal is in flight for the current board: no pending
reveal-end timeout captured the current generation's nodes. -/
def noCurReveal (s : GameState) : Prop :=
  Task.revealEnd s.gen ∉ s.tasks

instance : DecidablePred noCurReveal := fun s => by
  unfold noCurReveal; infer_instance

/-- `n` consecutive countdown ticks. -/
def tickN : Nat → GameState → GameState
  | 0, s => s
  | n + 1, s => tickN n (timerTick s)

/-- Four distinct card templates, as the asset fetch returns for the easy
difficulty (four distinct random ids). -/
def pokes4 : List Poke :=
  [⟨"bulbasaur", "i1"⟩, ⟨"charmander", "i2"⟩, ⟨"squirtle", "i3"⟩, ⟨"pikachu", "i4"⟩]

/-- A random-index stream making the Fisher-Yates run the identity
permutation on an 8-card deck (each draw picks the element already in
place). -/
def jsId7 : List Nat := [7, 6, 5, 4, 3, 2, 1]

/-- An easy round freshly started from page load. -/
def sPlay : GameState := startGame "easy" pokes4 jsId7 initState

/-- The same round after its whole 60 s budget has elapsed: 59 ticks bring
`timeLeft` to 1, the 60th triggers `endGame(false)`. -/
def sLost : GameState := timerTick (tickN 59 sPlay)

/-- The easy round right after two mismatching selections were flipped:
positions 0 and 2 hold `bulbasaur` and `charmander`. -/
def sMis : GameState := onCardClick 2 (onCardClick 0 sPlay)

/-- The pending 800 ms mismatch revert scheduled in `sMis`. -/
def tMis : Task := Task.revert ⟨1, 0, "bulbasaur"⟩ ⟨1, 2, "charmander"⟩

/-- Pressing reset during the mismatch delay and immediately starting a new
round. -/
def sNew : GameState := startGame "easy" pokes4 jsId7 (resetGame sMis)

/-- How many cards of the current board are not yet matched. -/
def unmatchedCount (s : GameState) : Nat :=
  s.board.countP (fun c => !c.matched)

/-- The pending first selection is a node of an earlier, replaced board
(possible because neither `resetGame` nor `startGame` clears
`firstCard`/`hasFlipped`). -/
def staleFirst (s : GameState) : Prop :=
  ∃ f, s.firstCard = some f ∧ f.gen ≠ s.gen

/-- Whether a pending task is a mismatch revert. -/
def isRevert : Task → Bool
  | Task.revert _ _ => true
  | _ => false

/-- How many mismatch-revert callbacks are pending. -/
def countReverts (s : GameState) : Nat :=
  s.tasks.countP isRevert

/-- The inductive invariant of the game's event loop, from which the
reachable-state claims are extracted. -/
structure Inv (s : GameState) : Prop where
  sumEq : s.pairsMatched + s.pairsLeft = s.totalPairs
  uBound : unmatchedCount s ≤ 2 * s.pairsLeft + 1
  uBoundStale : staleFirst s → unmatchedCount s ≤ 2 * s.pairsLeft
  flipSome : s.hasFlipped = true → ∃ f, s.firstCard = some f
  flipNone : s.hasFlipped = false → s.firstCard = none
  firstGenLe : ∀ f, s.firstCard = some f → f.gen ≤ s.gen
  firstWf : ∀ f, s.firstCard = some f → f.gen = s.gen →
      f.idx < s.board.length ∧ (boardGet s f.idx).matched = false ∧
      (boardGet s f.idx).name = f.name
  timerMsg : s.timerRunning = true → s.message = none
  revertUniq : countReverts s ≤ 1
  revertLock : ∀ a b, Task.revert a b ∈ s.tasks → s.lockBoard = true
  genBound : ∀ g, Task.revealEnd g ∈ s.tasks → g ≤ s.gen
  fuClause : noCurReveal s → ∀ i, fuAt s i = true →
      (∃ a b, Task.revert a b ∈ s.tasks ∧
         ((a.gen = s.gen ∧ i = a.idx) ∨ (b.gen = s.gen ∧ i = b.idx))) ∨
      (countReverts s = 0 ∧ ∃ f, s.firstCard = some f ∧ f.gen = s.gen ∧ i = f.idx)

end MatchGame

namespace AuthServer

/-- A stored user document (`server.js` signup handler, lines 105-110);
`_id` is modelled as an opaque `Nat`. -/
structure User where
  id : Nat
  name : String
  email : String
  password : String
  user_type : String
deriving DecidableEq, Repr

/-- The request's session as read by the middleware (`server.js` lines
54-76): `req.session.authenticated` and `req.session.user_type`. -/
structure Session where
  authenticated : Bool
  user_type : String
  name : String
deriving DecidableEq, Repr

/-- What an admin route sends back. -/
inductive Response where
  | redirect (loc : String)
  | forbidden
  | adminPage (users : List User)
deriving DecidableEq, Repr

/-- The three outcomes of the `requireAdmin` middleware. -/
inductive Gate where
  | redirectLogin
  | forbidden403
  | proceed
deriving DecidableEq, Repr

/-- `requireAdmin` (`server.js` lines 68-76). -/
def requireAdmin (s : Session) : Gate :=
  if s.authenticated = false then Gate.redirectLogin
  else if s.user_type ≠ "admin" then Gate.forbidden403
  else Gate.proceed

/-- `updateOne({_id}, {$set: {user_type: t}})`: rewrites the role of the
first document whose `_id` matches. -/
def updateUserType (db : List User) (uid : Nat) (t : String) : List User :=
  match db with
  | [] => []
  | u :: us =>
    if u.id = uid then { u with user_type := t } :: us
    else u :: updateUserType us uid t

/-- `GET /admin` (`server.js` lines 156-166): the handler body lists every
user; it runs only when `requireAdmin` calls `next()`. -/
def adminRoute (sess : Session) (db : List User) : List User × Response :=
  match requireAdmin sess with
  | Gate.redirectLogin => (db, Response.redirect "/login")
  | Gate.forbidden403 => (db, Response.forbidden)
  | Gate.proceed => (db, Response.adminPage db)

/-- `POST /admin/promote/:id` (`server.js` lines 169-175). -/
def promoteRoute (sess : Session) (uid : Nat) (db : List User) : List User × Response :=
  match requireAdmin sess with
  | Gate.redirectLogin => (db, Response.redirect "/login")
  | Gate.forbidden403 => (db, Response.forbidden)
  | Gate.proceed => (updateUserType db uid "admin", Response.redirect "/admin")

/-- `POST /admin/demote/:id` (`server.js` lines 177-183). -/
def demoteRoute (sess : Session) (uid : Nat) (db : List User) : List User × Response :=
  match requireAdmin sess with
  | Gate.redirectLogin => (db, Response.redirect "/login")
  | Gate.forbidden403 => (db, Response.forbidden)
  | Gate.proceed => (updateUserType db uid "user", Response.redirect "/admin")

end AuthServer


namespace MatchGame

/-- States of the start/timer subsystem with the event loop's suspension
points explicit.  `startGame` (part_000 lines 197-220) is `async`: its body
runs as three synchronous blocks separated by `await fetchBackSprite()`
(line 203) and `await generateDeck(totalPairs)` (line 216).  `timer` is the
module variable that keeps only the most recently installed interval handle
(line 85); `intervals` lists the countdown intervals actually live in the
browser, which can outnumber the stored handle when `startGame` runs
overlap; `fetchWaits` counts runs suspended at the first `await`, and
`deckWaits` holds, for each run suspended at the second `await`, the pair
count captured by its `generateDeck(totalPairs)` call.  `timeLeft` is an
`Int` because `timeLeft--` (line 86) drives it below zero once a leaked
interval keeps firing. -/
structure JState where
  board        : List Slot
  gen          : Nat
  clickCount   : Nat
  pairsMatched : Nat
  pairsLeft    : Nat
  totalPairs   : Nat
  timeLeft     : Int
  timer        : Option Nat
  intervals    : List Nat
  nextId       : Nat
  message      : Option Bool
  lockBoard    : Bool
  startEnabled : Bool
  resetEnabled : Bool
  powerEnabled : Bool
  fetchWaits   : Nat
  deckWaits    : List Nat
deriving DecidableEq, Repr

/-- `endGame` (part_000 lines 93-107) over `JState`: `clearInterval(timer)`
cancels the interval whose handle the `timer` variable stores (a no-op on a
handle already cleared), shows the banner and locks the board.  Any other
live interval keeps running. -/
def endGameJ (won : Bool) (s : JState) : JState :=
  { s with intervals := match s.timer with
                        | some h => s.intervals.erase h
                        | none => s.intervals,
           message := some won,
           lockBoard := true }

/-- `startTimer` (part_000 lines 83-90): installs a fresh countdown interval
and overwrites the `timer` variable with its handle. -/
def startTimerJ (s : JState) : JState :=
  { s with timer := some s.nextId,
           intervals := s.nextId :: s.intervals,
           nextId := s.nextId + 1 }

/-- One firing of any live countdown interval (part_000 lines 85-89):
`timeLeft--`, then `if (timeLeft <= 0) endGame(false)`. -/
def tickJ (s : JState) : JState :=
  let s1 := { s with timeLeft := s.timeLeft - 1 }
  if s1.timeLeft ≤ 0 then endGameJ false s1 else s1

/-- The synchronous prefix of `startGame` (part_000 lines 198-203), run by
the Start click itself: hides the banner, zeroes `clickCount` and
`pairsMatched`, then suspends at `await fetchBackSprite()`.  `startBtn` is
still enabled here - it is disabled only at line 212, after the await. -/
def startClickJ (s : JState) : JState :=
  { s with message := none,
           clickCount := 0,
           pairsMatched := 0,
           fetchWaits := s.fetchWaits + 1 }

/-- The block of `startGame` between the two awaits (part_000 lines
205-216): resolves the difficulty, sets the counters and `timeLeft`, flips
the three buttons, then calls `generateDeck(totalPairs)` - capturing the
pair count - and suspends on it. -/
def startResume1 (diff : String) (s : JState) : JState :=
  let p := pairsFor diff
  { s with totalPairs := p,
           timeLeft := (timeFor diff : Int),
           pairsLeft := p,
           startEnabled := false,
           resetEnabled := true,
           powerEnabled := true,
           fetchWaits := s.fetchWaits - 1,
           deckWaits := p :: s.deckWaits }

/-- The final block of `startGame` (part_000 lines 216-219), run when the
suspended deck fetch resolves: shuffles, renders the fresh board (new
generation) and calls `startTimer`, installing one more countdown
interval. -/
def startResume2 (n : Nat) (pokes : List Poke) (js : List Nat) (s : JState) :
    JState :=
  let deck := shuffle (generateDeck pokes) js
  startTimerJ { s with board := deck.map (fun q => ⟨q.name, false, false⟩),
                       gen := s.gen + 1,
                       deckWaits := s.deckWaits.erase n }

/-- `resetGame` (part_000 lines 222-235) over `JState`: clears only the
stored interval handle, empties the board, zeroes the counters and flips
the buttons. -/
def resetGameJ (s : JState) : JState :=
  { s with intervals := match s.timer with
                        | some h => s.intervals.erase h
                        | none => s.intervals,
           board := [],
           gen := s.gen + 1,
           clickCount := 0,
           pairsMatched := 0,
           pairsLeft := 0,
           totalPairs := 0,
           timeLeft := 0,
           startEnabled := true,
           resetEnabled := false,
           powerEnabled := false,
           message := none }

/-- The page-load state of the start/timer subsystem: no interval, no
suspended `startGame` run, zeroed counters (part_000 lines 16-19). -/
def initJState : JState where
  board := []
  gen := 0
  clickCount := 0
  pairsMatched := 0
  pairsLeft := 0
  totalPairs := 0
  timeLeft := 0
  timer := none
  intervals := []
  nextId := 0
  message := none
  lockBoard := false
  startEnabled := true
  resetEnabled := false
  powerEnabled := false
  fetchWaits := 0
  deckWaits := []

/-- One event-loop turn of the start/timer subsystem: a Start click (only
while the button is enabled), the resumption of one run suspended at either
`await` (network resolution order is arbitrary), the firing of any live
countdown interval, or a Reset click. -/
inductive AStep : JState → JState → Prop
  | pressStart (s : JState) (h : s.startEnabled = true) : AStep s (startClickJ s)
  | resumeFetch (diff : String) (s : JState) (h : 0 < s.fetchWaits) :
      AStep s (startResume1 diff s)
  | resumeDeck (n : Nat) (pokes : List Poke) (js : List Nat) (s : JState)
      (hn : n ∈ s.deckWaits) (hp : pokes.length = n) :
      AStep s (startResume2 n pokes js s)
  | tick (h : Nat) (s : JState) (hmem : h ∈ s.intervals) : AStep s (tickJ s)
  | reset (s : JState) (h : s.resetEnabled = true) : AStep s (resetGameJ s)

/-- States the start/timer subsystem can reach from page load. -/
def ReachableA (s : JState) : Prop :=
  Relation.ReflTransGen AStep initJState s

/-- `n` consecutive interval firings. -/
def tickNJ : Nat → JState → JState
  | 0, s => s
  | n + 1, s => tickNJ n (tickJ s)

/-- Two overlapping Start clicks on the easy difficulty: both are accepted
because `startBtn` is disabled only after the first `await`. -/
def sRaceA : JState := startClickJ (startClickJ initJState)

/-- Both overlapping runs resumed past the sprite fetch. -/
def sRaceB : JState := startResume1 "easy" (startResume1 "easy" sRaceA)

/-- Both overlapping runs completed: two countdown intervals live, `timer`
storing only the second handle. -/
def sRaceC : JState :=
  startResume2 4 pokes4 jsId7 (startResume2 4 pokes4 jsId7 sRaceB)

/-- The raced round after sixty firings: the sixtieth reaches zero and runs
`endGame(false)`, which clears only the stored handle - the first interval
is still live. -/
def sRaceLost : JState := tickJ (tickNJ 59 sRaceC)

/-- A single, non-overlapping easy run after fifty-nine firings: one live
interval, stored in `timer`, one second left. -/
def sSingleRun : JState :=
  tickNJ 59 (startResume2 4 pokes4 jsId7
    (startResume1 "easy" (startClickJ initJState)))

end MatchGame

/-! ## Theorems -/

namespace MatchGame

lemma tickN_reach (n : Nat) : ∀ s : GameState, Reachable s → s.timerRunning = true →
    n < s.timeLeft →
    Reachable (tickN n s) ∧ (tickN n s).timerRunning = true ∧
    (tickN n s).timeLeft = s.timeLeft - n := by
  induction n with
  | zero => intro s h ht _; exact ⟨h, ht, by simp [tickN]⟩
  | succ k ih =>
      intro s h ht hl
      have hne : ¬ s.timeLeft - 1 = 0 := by omega
      have htR : (timerTick s).timerRunning = true := by
        simp [timerTick, hne, ht]
      have htL : (timerTick s).timeLeft = s.timeLeft - 1 := by
        simp [timerTick, hne]
      have hr : Reachable (timerTick s) :=
        Relation.ReflTransGen.tail h (Step.tick s ht)
      have h2 := ih (timerTick s) hr htR (by rw [htL]; omega)
      have ht3 : tickN (k + 1) s = tickN k (timerTick s) := rfl
      refine ⟨by rw [ht3]; exact h2.1, by rw [ht3]; exact h2.2.1, ?_⟩
      rw [ht3, h2.2.2, htL]
      omega

lemma reach_sPlay : Reachable sPlay :=
  Relation.ReflTransGen.single
    (Step.start "easy" pokes4 jsId7 initState rfl (by decide))

lemma reach_tick59 : Reachable (tickN 59 sPlay) ∧ (tickN 59 sPlay).timerRunning = true := by
  have h := tickN_reach 59 sPlay reach_sPlay (by decide) (by decide)
  exact ⟨h.1, h.2.1⟩

lemma reach_sLost : Reachable sLost :=
  Relation.ReflTransGen.tail reach_tick59.1 (Step.tick _ reach_tick59.2)

lemma reach_sMis : Reachable sMis :=
  Relation.ReflTransGen.tail
    (Relation.ReflTransGen.tail reach_sPlay (Step.click 0 sPlay))
    (Step.click 2 (onCardClick 0 sPlay))

lemma reach_sNew : Reachable sNew :=
  Relation.ReflTransGen.tail
    (Relation.ReflTransGen.tail reach_sMis (Step.reset sMis (by decide)))
    (Step.start "easy" pokes4 jsId7 (resetGame sMis) (by decide) (by decide))

end MatchGame

/-- C10: for every request to `/admin`, `/admin/promote/:id` or
`/admin/demote/:id`, the handler body runs only when the session is
authenticated with `user_type = 'admin'`; an unauthenticated request is
redirected to `/login` and an authenticated non-admin request gets 403, in
both cases with the user collection unmodified. -/
theorem c10_admin_gate (sess : AuthServer.Session) (uid : Nat)
    (db : List AuthServer.User) :
    (sess.authenticated = false →
       AuthServer.adminRoute sess db = (db, AuthServer.Response.redirect "/login") ∧
       AuthServer.promoteRoute sess uid db = (db, AuthServer.Response.redirect "/login") ∧
       AuthServer.demoteRoute sess uid db = (db, AuthServer.Response.redirect "/login")) ∧
    (sess.authenticated = true → sess.user_type ≠ "admin" →
       AuthServer.adminRoute sess db = (db, AuthServer.Response.forbidden) ∧
       AuthServer.promoteRoute sess uid db = (db, AuthServer.Response.forbidden) ∧
       AuthServer.demoteRoute sess uid db = (db, AuthServer.Response.forbidden)) ∧
    (sess.authenticated = true → sess.user_type = "admin" →
       AuthServer.adminRoute sess db = (db, AuthServer.Response.adminPage db) ∧
       AuthServer.promoteRoute sess uid db
         = (AuthServer.updateUserType db uid "admin", AuthServer.Response.redirect "/admin") ∧
       AuthServer.demoteRoute sess uid db
         = (AuthServer.updateUserType db uid "user", AuthServer.Response.redirect "/admin")) := by
  refine ⟨fun h => ?_, fun h h2 => ?_, fun h h2 => ?_⟩
  · simp [AuthServer.adminRoute, AuthServer.promoteRoute, AuthServer.demoteRoute,
          AuthServer.requireAdmin, h]
  · simp [AuthServer.adminRoute, AuthServer.promoteRoute, AuthServer.demoteRoute,
          AuthServer.requireAdmin, h, h2]
  · simp [AuthServer.adminRoute, AuthServer.promoteRoute, AuthServer.demoteRoute,
          AuthServer.requireAdmin, h, h2]

/-- C10 witness: the three gate outcomes at concrete sessions. -/
theorem c10_admin_gate_witness :
    AuthServer.promoteRoute ⟨false, "user", "x"⟩ 1 [⟨1, "a", "e", "p", "user"⟩]
      = ([⟨1, "a", "e", "p", "user"⟩], AuthServer.Response.redirect "/login") ∧
    AuthServer.promoteRoute ⟨true, "user", "x"⟩ 1 [⟨1, "a", "e", "p", "user"⟩]
      = ([⟨1, "a", "e", "p", "user"⟩], AuthServer.Response.forbidden) ∧
    AuthServer.promoteRoute ⟨true, "admin", "x"⟩ 1 [⟨1, "a", "e", "p", "user"⟩]
      = (AuthServer.updateUserType [⟨1, "a", "e", "p", "user"⟩] 1 "admin",
         AuthServer.Response.redirect "/admin") :=
  ⟨((c10_admin_gate ⟨false, "user", "x"⟩ 1 [⟨1, "a", "e", "p", "user"⟩]).1 rfl).2.1,
   ((c10_admin_gate ⟨true, "user", "x"⟩ 1 [⟨1, "a", "e", "p", "user"⟩]).2.1 rfl (by decide)).2.1,
   ((c10_admin_gate ⟨true, "admin", "x"⟩ 1 [⟨1, "a", "e", "p", "user"⟩]).2.2 rfl rfl).2.1⟩

/-- C3 (amended): `resetGame` always zeroes `totalPairs`, `pairsMatched`,
`pairsLeft` and `clickCount` and stops the countdown interval, but it
cancels no pending mismatch-revert or power-up callback: the pending task
list survives reset unchanged. -/
theorem c3_reset_amended (s : MatchGame.GameState) :
    (MatchGame.resetGame s).totalPairs = 0 ∧
    (MatchGame.resetGame s).pairsMatched = 0 ∧
    (MatchGame.resetGame s).pairsLeft = 0 ∧
    (MatchGame.resetGame s).clickCount = 0 ∧
    (MatchGame.resetGame s).timerRunning = false ∧
    (MatchGame.resetGame s).tasks = s.tasks :=
  ⟨rfl, rfl, rfl, rfl, rfl, rfl⟩

/-- C3 counterexample: reset during the 800 ms mismatch delay does not
cancel the pending revert; the stale callback survives into the next round
(which starts with the carried-over board lock) and, when it fires there,
mutates that round's state by clearing the lock. -/
theorem c3_stale_callback_counterexample :
    MatchGame.Reachable MatchGame.sNew ∧
    MatchGame.tMis ∈ (MatchGame.resetGame MatchGame.sMis).tasks ∧
    MatchGame.tMis ∈ MatchGame.sNew.tasks ∧
    MatchGame.sNew.lockBoard = true ∧
    MatchGame.Step MatchGame.sNew (MatchGame.fireTask MatchGame.tMis MatchGame.sNew) ∧
    (MatchGame.fireTask MatchGame.tMis MatchGame.sNew).lockBoard = false ∧
    MatchGame.fireTask MatchGame.tMis MatchGame.sNew ≠ MatchGame.sNew :=
  ⟨MatchGame.reach_sNew, by decide, by decide, by decide,
   MatchGame.Step.fire MatchGame.tMis MatchGame.sNew (by decide), by decide, by decide⟩

/-- C6 (amended): power-up activation is gated solely by the button's
disabled flag, never by the round's phase: activating immediately disables
the button and schedules the reveal in every state, and a reachable `Lost`
round still has the button enabled, where activation still mutates the
board. -/
theorem c6_power_gate_amended :
    (∀ s : MatchGame.GameState, (MatchGame.handlePowerUp s).powerEnabled = false) ∧
    (∀ s : MatchGame.GameState,
       (MatchGame.handlePowerUp s).tasks = MatchGame.Task.revealEnd s.gen :: s.tasks) ∧
    (∃ s : MatchGame.GameState, MatchGame.Reachable s ∧ s.message = some false ∧
       s.powerEnabled = true ∧ MatchGame.handlePowerUp s ≠ s) :=
  ⟨fun _ => rfl, fun _ => rfl,
   ⟨MatchGame.sLost, MatchGame.reach_sLost, by decide, by decide, by decide⟩⟩

/-- C6 counterexample: in the reachable `Lost` state `sLost` the power
button is still enabled and activation is not a no-op: it flips the
board's cards and schedules the reveal, contradicting the claim that
activation outside `Playing` is a no-op. -/
theorem c6_power_in_lost_counterexample :
    MatchGame.Reachable MatchGame.sLost ∧
    MatchGame.sLost.message = some false ∧
    MatchGame.sLost.powerEnabled = true ∧
    MatchGame.Step MatchGame.sLost (MatchGame.handlePowerUp MatchGame.sLost) ∧
    (MatchGame.handlePowerUp MatchGame.sLost).board ≠ MatchGame.sLost.board :=
  ⟨MatchGame.reach_sLost, by decide, by decide,
   MatchGame.Step.power MatchGame.sLost (by decide), by decide⟩

namespace MatchGame

lemma lt_length_of_get? {l : List α} {i : Nat} {a : α} (h : l.get? i = some a) :
    i < l.length := by
  by_contra hn
  rw [List.get?_eq_none.mpr (Nat.le_of_not_lt hn)] at h
  cases h

lemma boardGet_eq {s : GameState} {i : Nat} {c : Slot}
    (h : s.board.get? i = some c) : boardGet s i = c := by
  rw [boardGet, h]; rfl

lemma onCardClick_locked {s : GameState} (i : Nat) (h : s.lockBoard = true) :
    onCardClick i s = s := by
  unfold onCardClick
  rw [h]
  simp

lemma onCardClick_first {s : GameState} {i : Nat} {c : Slot}
    (hlock : s.lockBoard = false) (hc : s.board.get? i = some c)
    (hfc : s.firstCard ≠ some ⟨s.gen, i, c.name⟩) (hm : c.matched = false)
    (h0 : s.hasFlipped = false) :
    onCardClick i s = { s with board := s.board.set i { c with flip := true },
                               hasFlipped := true,
                               firstCard := some ⟨s.gen, i, c.name⟩ } := by
  unfold onCardClick
  rw [hlock, hc]
  simp [hfc, hm, h0]

lemma onCardClick_second {s : GameState} {i : Nat} {c : Slot}
    (hlock : s.lockBoard = false) (hc : s.board.get? i = some c)
    (hfc : s.firstCard ≠ some ⟨s.gen, i, c.name⟩) (hm : c.matched = false)
    (h1 : s.hasFlipped = true) :
    onCardClick i s
      = checkMatch { s with board := s.board.set i { c with flip := true },
                            secondCard := some ⟨s.gen, i, c.name⟩,
                            lockBoard := true,
                            clickCount := s.clickCount + 1 } := by
  unfold onCardClick
  rw [hlock, hc]
  simp [hfc, hm, h1]

lemma checkMatch_mismatch {s : GameState} {f sc : Ref}
    (hf : s.firstCard = some f) (hs : s.secondCard = some sc)
    (hn : f.name ≠ sc.name) :
    checkMatch s = { s with tasks := Task.revert f sc :: s.tasks } := by
  unfold checkMatch
  rw [hf, hs]
  simp [hn]

lemma checkMatch_clickCount (s : GameState) :
    (checkMatch s).clickCount = s.clickCount := by
  unfold checkMatch
  split
  · split
    · dsimp only
      split <;> rfl
    · rfl
  · rfl

end MatchGame

/-- C9: `clickCount` increases by exactly 1 when a click completes a
two-card selection (a pending first card exists and the clicked card is a
selectable second card), and never changes when a click only flips the
first card of a pair (no pending selection) or is rejected. -/
theorem c9_click_count (s : MatchGame.GameState) (i : Nat) :
    (s.hasFlipped = false → (MatchGame.onCardClick i s).clickCount = s.clickCount) ∧
    (s.lockBoard = true → (MatchGame.onCardClick i s).clickCount = s.clickCount) ∧
    (∀ c : MatchGame.Slot, s.hasFlipped = true → s.lockBoard = false →
       s.board.get? i = some c → c.matched = false →
       s.firstCard ≠ some ⟨s.gen, i, c.name⟩ →
       (MatchGame.onCardClick i s).clickCount = s.clickCount + 1) := by
  refine ⟨fun h0 => ?_, fun hl => ?_, fun c h1 hl hc hm hfc => ?_⟩
  · unfold MatchGame.onCardClick
    repeat' split
    all_goals simp_all
  · rw [MatchGame.onCardClick_locked i hl]
  · rw [MatchGame.onCardClick_second hl hc hfc hm h1,
        MatchGame.checkMatch_clickCount]

/-- C9 witness: in the freshly started easy round, flipping the first card
leaves `clickCount = 0`; completing the selection at a second card makes it
exactly 1. -/
theorem c9_click_count_witness :
    (MatchGame.onCardClick 0 MatchGame.sPlay).clickCount = MatchGame.sPlay.clickCount ∧
    (MatchGame.onCardClick 2 (MatchGame.onCardClick 0 MatchGame.sPlay)).clickCount
      = (MatchGame.onCardClick 0 MatchGame.sPlay).clickCount + 1 :=
  ⟨(c9_click_count MatchGame.sPlay 0).1 rfl,
   (c9_click_count (MatchGame.onCardClick 0 MatchGame.sPlay) 2).2.2
     ⟨"charmander", false, false⟩ (by decide) (by decide) (by decide)
     (by decide) (by decide)⟩

namespace MatchGame

lemma unflipRef_cur {r : Ref} {g : Nat} {b : List Slot} {c : Slot}
    (hg : r.gen = g) (hc : b.get? r.idx = some c) :
    unflipRef r g b = b.set r.idx { c with flip := false } := by
  unfold unflipRef
  rw [if_pos hg, hc]

lemma markRef_cur {r : Ref} {g : Nat} {b : List Slot} {c : Slot}
    (hg : r.gen = g) (hc : b.get? r.idx = some c) :
    markRef r g b = b.set r.idx { c with matched := true } := by
  unfold markRef
  rw [if_pos hg, hc]

lemma unflipRef_stale {r : Ref} {g : Nat} {b : List Slot} (hg : r.gen ≠ g) :
    unflipRef r g b = b := by
  unfold unflipRef
  rw [if_neg hg]

lemma markRef_stale {r : Ref} {g : Nat} {b : List Slot} (hg : r.gen ≠ g) :
    markRef r g b = b := by
  unfold markRef
  rw [if_neg hg]

end MatchGame

/-- C5: completing a two-card selection on cards with differing
`displayName` schedules the mismatch revert (locking the board and counting
the click); when the delayed revert fires, both cards are face-down again,
the pending selection is cleared, the lock is released, and no counter
other than `clickCount` has changed. -/
theorem c5_mismatch_revert (s : MatchGame.GameState) (i : Nat)
    (c cf : MatchGame.Slot) (f : MatchGame.Ref)
    (hlock : s.lockBoard = false)
    (hflip : s.hasFlipped = true)
    (hf : s.firstCard = some f)
    (hg : f.gen = s.gen)
    (hcf : s.board.get? f.idx = some cf)
    (hc : s.board.get? i = some c)
    (hm : c.matched = false)
    (hfi : f.idx ≠ i)
    (hn : f.name ≠ c.name) :
    (MatchGame.onCardClick i s).tasks
      = MatchGame.Task.revert f ⟨s.gen, i, c.name⟩ :: s.tasks ∧
    (MatchGame.onCardClick i s).lockBoard = true ∧
    (MatchGame.onCardClick i s).clickCount = s.clickCount + 1 ∧
    MatchGame.Step (MatchGame.onCardClick i s)
      (MatchGame.fireTask (MatchGame.Task.revert f ⟨s.gen, i, c.name⟩)
        (MatchGame.onCardClick i s)) ∧
    (MatchGame.boardGet (MatchGame.fireTask
        (MatchGame.Task.revert f ⟨s.gen, i, c.name⟩)
        (MatchGame.onCardClick i s)) i).flip = false ∧
    (MatchGame.boardGet (MatchGame.fireTask
        (MatchGame.Task.revert f ⟨s.gen, i, c.name⟩)
        (MatchGame.onCardClick i s)) f.idx).flip = false ∧
    (MatchGame.fireTask (MatchGame.Task.revert f ⟨s.gen, i, c.name⟩)
        (MatchGame.onCardClick i s)).firstCard = none ∧
    (MatchGame.fireTask (MatchGame.Task.revert f ⟨s.gen, i, c.name⟩)
        (MatchGame.onCardClick i s)).secondCard = none ∧
    (MatchGame.fireTask (MatchGame.Task.revert f ⟨s.gen, i, c.name⟩)
        (MatchGame.onCardClick i s)).hasFlipped = false ∧
    (MatchGame.fireTask (MatchGame.Task.revert f ⟨s.gen, i, c.name⟩)
        (MatchGame.onCardClick i s)).lockBoard = false ∧
    (MatchGame.fireTask (MatchGame.Task.revert f ⟨s.gen, i, c.name⟩)
        (MatchGame.onCardClick i s)).pairsMatched = s.pairsMatched ∧
    (MatchGame.fireTask (MatchGame.Task.revert f ⟨s.gen, i, c.name⟩)
        (MatchGame.onCardClick i s)).pairsLeft = s.pairsLeft ∧
    (MatchGame.fireTask (MatchGame.Task.revert f ⟨s.gen, i, c.name⟩)
        (MatchGame.onCardClick i s)).totalPairs = s.totalPairs ∧
    (MatchGame.fireTask (MatchGame.Task.revert f ⟨s.gen, i, c.name⟩)
        (MatchGame.onCardClick i s)).clickCount = s.clickCount + 1 ∧
    (MatchGame.fireTask (MatchGame.Task.revert f ⟨s.gen, i, c.name⟩)
        (MatchGame.onCardClick i s)).tasks = s.tasks ∧
    (MatchGame.fireTask (MatchGame.Task.revert f ⟨s.gen, i, c.name⟩)
        (MatchGame.onCardClick i s)).timerRunning = s.timerRunning ∧
    (MatchGame.fireTask (MatchGame.Task.revert f ⟨s.gen, i, c.name⟩)
        (MatchGame.onCardClick i s)).message = s.message := by
  have hilen : i < s.board.length := MatchGame.lt_length_of_get? hc
  have hflen : f.idx < s.board.length := MatchGame.lt_length_of_get? hcf
  have hfc : s.firstCard ≠ some ⟨s.gen, i, c.name⟩ := by
    rw [hf]
    intro hcon
    have hfe : f = ⟨s.gen, i, c.name⟩ := by injection hcon
    exact hn (by rw [hfe])
  have e1 : MatchGame.onCardClick i s
      = { s with board := s.board.set i { c with flip := true },
                 secondCard := some ⟨s.gen, i, c.name⟩,
                 lockBoard := true,
                 clickCount := s.clickCount + 1,
                 tasks := MatchGame.Task.revert f ⟨s.gen, i, c.name⟩ :: s.tasks } := by
    rw [MatchGame.onCardClick_second hlock hc hfc hm hflip]
    exact MatchGame.checkMatch_mismatch hf rfl hn
  have hb1f : (s.board.set i { c with flip := true }).get? f.idx = some cf := by
    rw [List.get?_set_ne _ _ (fun h => hfi h.symm)]
    exact hcf
  have hb1i : (s.board.set i { c with flip := true }).get? i
      = some { c with flip := true } :=
    List.get?_set_eq_of_lt _ hilen
  have hb2i : ((s.board.set i { c with flip := true }).set f.idx
        { cf with flip := false }).get? i = some { c with flip := true } := by
    rw [List.get?_set_ne _ _ hfi]
    exact hb1i
  rw [e1]
  have e2 : MatchGame.fireTask (MatchGame.Task.revert f ⟨s.gen, i, c.name⟩)
      { s with board := s.board.set i { c with flip := true },
               secondCard := some ⟨s.gen, i, c.name⟩,
               lockBoard := true,
               clickCount := s.clickCount + 1,
               tasks := MatchGame.Task.revert f ⟨s.gen, i, c.name⟩ :: s.tasks }
      = { s with board := ((s.board.set i { c with flip := true }).set f.idx
                    { cf with flip := false }).set i
                    { c with flip := false },
                 secondCard := none,
                 firstCard := none,
                 hasFlipped := false,
                 lockBoard := false,
                 clickCount := s.clickCount + 1,
                 tasks := s.tasks } := by
    unfold MatchGame.fireTask
    dsimp only
    rw [List.erase_cons_head]
    rw [MatchGame.unflipRef_cur hg hb1f]
    rw [MatchGame.unflipRef_cur rfl hb2i]
    rfl
  rw [e2]
  have hb3i : (((s.board.set i { c with flip := true }).set f.idx
        { cf with flip := false }).set i { c with flip := false }).get? i
      = some { c with flip := false } := by
    apply List.get?_set_eq_of_lt
    simpa using hilen
  have hb3f : (((s.board.set i { c with flip := true }).set f.idx
        { cf with flip := false }).set i { c with flip := false }).get? f.idx
      = some { cf with flip := false } := by
    rw [List.get?_set_ne _ _ (fun h => hfi h.symm)]
    apply List.get?_set_eq_of_lt
    simpa using hflen
  refine ⟨rfl, rfl, rfl, ?_, ?_, ?_, rfl, rfl, rfl, rfl, rfl, rfl, rfl, rfl,
          rfl, rfl, rfl⟩
  · rw [← e2]
    exact MatchGame.Step.fire _ _ (List.mem_cons_self _ _)
  · rw [MatchGame.boardGet_eq hb3i]
  · rw [MatchGame.boardGet_eq hb3f]

/-- C5 witness: in the easy round, flipping `bulbasaur` (position 0) and
`charmander` (position 2) and letting the scheduled revert fire leaves both
cards face-down with the selection cleared and exactly one counted click. -/
theorem c5_mismatch_revert_witness :
    (MatchGame.boardGet (MatchGame.fireTask
        (MatchGame.Task.revert ⟨1, 0, "bulbasaur"⟩ ⟨1, 2, "charmander"⟩)
        (MatchGame.onCardClick 2 (MatchGame.onCardClick 0 MatchGame.sPlay))) 2).flip
      = false ∧
    (MatchGame.boardGet (MatchGame.fireTask
        (MatchGame.Task.revert ⟨1, 0, "bulbasaur"⟩ ⟨1, 2, "charmander"⟩)
        (MatchGame.onCardClick 2 (MatchGame.onCardClick 0 MatchGame.sPlay))) 0).flip
      = false ∧
    (MatchGame.fireTask
        (MatchGame.Task.revert ⟨1, 0, "bulbasaur"⟩ ⟨1, 2, "charmander"⟩)
        (MatchGame.onCardClick 2 (MatchGame.onCardClick 0 MatchGame.sPlay))).firstCard
      = none ∧
    (MatchGame.fireTask
        (MatchGame.Task.revert ⟨1, 0, "bulbasaur"⟩ ⟨1, 2, "charmander"⟩)
        (MatchGame.onCardClick 2 (MatchGame.onCardClick 0 MatchGame.sPlay))).clickCount
      = (MatchGame.onCardClick 0 MatchGame.sPlay).clickCount + 1 := by
  have h := c5_mismatch_revert (MatchGame.onCardClick 0 MatchGame.sPlay) 2
      ⟨"charmander", false, false⟩ ⟨"bulbasaur", true, false⟩ ⟨1, 0, "bulbasaur"⟩
      (by decide) (by decide) (by decide) (by decide) (by decide) (by decide)
      (by decide) (by decide) (by decide)
  exact ⟨h.2.2.2.2.1, h.2.2.2.2.2.1, h.2.2.2.2.2.2.1,
         h.2.2.2.2.2.2.2.2.2.2.2.2.2.1⟩

namespace MatchGame

lemma checkMatch_match {s : GameState} {f sc : Ref}
    (hf : s.firstCard = some f) (hs : s.secondCard = some sc)
    (heq : f.name = sc.name) :
    checkMatch s = resetFlip
      (if s.pairsMatched + 1 = s.totalPairs then
         endGame true { s with board := markRef sc s.gen (markRef f s.gen s.board),
                               pairsMatched := s.pairsMatched + 1,
                               pairsLeft := s.pairsLeft - 1 }
       else { s with board := markRef sc s.gen (markRef f s.gen s.board),
                     pairsMatched := s.pairsMatched + 1,
                     pairsLeft := s.pairsLeft - 1 }) := by
  unfold checkMatch
  rw [hf, hs]
  dsimp only
  rw [if_pos heq]

lemma markRef_mk {r : Ref} {g : Nat} {b : List Slot} {c : Slot}
    (hg : r.gen = g) (hc : b.get? r.idx = some c) :
    markRef r g b = b.set r.idx ⟨c.name, c.flip, true⟩ := by
  rw [markRef_cur hg hc]

lemma set_swap_pairs (b : List Slot) {j k : Nat} (hjk : j ≠ k)
    (fj fk mj mk : Slot) :
    (((b.set j fj).set k fk).set j mj).set k mk
      = (((b.set k fk).set j fj).set k mk).set j mj := by
  have h1 : (((b.set j fj).set k fk).set j mj).set k mk
      = (b.set k mk).set j mj := by
    rw [List.set_comm fj fk b hjk, List.set_set]
    rw [List.set_comm mj mk (b.set k fk) hjk, List.set_set]
  have h2 : (((b.set k fk).set j fj).set k mk).set j mj
      = (b.set k mk).set j mj := by
    rw [List.set_comm fj mk (b.set k fk) hjk, List.set_set, List.set_set]
  rw [h1, h2]

end MatchGame

/-- C4: completing a two-card selection on two distinct cards with equal
`displayName` marks both cards `Matched`, adds one to `pairsMatched`,
removes one from `pairsRemaining`, clears the pending selection, leaves the
board unlocked, counts one click, and - exactly when `pairsMatched` then
equals `pairTotal` - shows the win banner with the countdown stopped; the
resulting state is identical whichever of the two cards was selected
first. -/
theorem c4_match_selection (s : MatchGame.GameState) (j k : Nat)
    (cj ck : MatchGame.Slot)
    (hlock : s.lockBoard = false)
    (hflip : s.hasFlipped = false)
    (hfc : s.firstCard = none)
    (hcj : s.board.get? j = some cj)
    (hck : s.board.get? k = some ck)
    (hjk : j ≠ k)
    (hmj : cj.matched = false)
    (hmk : ck.matched = false)
    (hname : cj.name = ck.name) :
    (MatchGame.boardGet (MatchGame.onCardClick k (MatchGame.onCardClick j s)) j).matched
      = true ∧
    (MatchGame.boardGet (MatchGame.onCardClick k (MatchGame.onCardClick j s)) k).matched
      = true ∧
    (MatchGame.boardGet (MatchGame.onCardClick k (MatchGame.onCardClick j s)) j).name
      = cj.name ∧
    (MatchGame.boardGet (MatchGame.onCardClick k (MatchGame.onCardClick j s)) k).name
      = ck.name ∧
    (MatchGame.onCardClick k (MatchGame.onCardClick j s)).pairsMatched
      = s.pairsMatched + 1 ∧
    (MatchGame.onCardClick k (MatchGame.onCardClick j s)).pairsLeft
      = s.pairsLeft - 1 ∧
    (MatchGame.onCardClick k (MatchGame.onCardClick j s)).firstCard = none ∧
    (MatchGame.onCardClick k (MatchGame.onCardClick j s)).secondCard = none ∧
    (MatchGame.onCardClick k (MatchGame.onCardClick j s)).hasFlipped = false ∧
    (MatchGame.onCardClick k (MatchGame.onCardClick j s)).lockBoard = false ∧
    (MatchGame.onCardClick k (MatchGame.onCardClick j s)).clickCount
      = s.clickCount + 1 ∧
    (s.pairsMatched + 1 = s.totalPairs →
       (MatchGame.onCardClick k (MatchGame.onCardClick j s)).message = some true ∧
       (MatchGame.onCardClick k (MatchGame.onCardClick j s)).timerRunning = false) ∧
    (s.pairsMatched + 1 ≠ s.totalPairs →
       (MatchGame.onCardClick k (MatchGame.onCardClick j s)).message = s.message ∧
       (MatchGame.onCardClick k (MatchGame.onCardClick j s)).timerRunning
         = s.timerRunning) ∧
    MatchGame.onCardClick k (MatchGame.onCardClick j s)
      = MatchGame.onCardClick j (MatchGame.onCardClick k s) := by
  have hjlen : j < s.board.length := MatchGame.lt_length_of_get? hcj
  have hklen : k < s.board.length := MatchGame.lt_length_of_get? hck
  have hfcj : s.firstCard ≠ some ⟨s.gen, j, cj.name⟩ := by rw [hfc]; simp
  have hfck : s.firstCard ≠ some ⟨s.gen, k, ck.name⟩ := by rw [hfc]; simp
  have hck2 : (s.board.set j ⟨cj.name, true, cj.matched⟩).get? k = some ck := by
    rw [List.get?_set_ne _ _ hjk]; exact hck
  have hcj2 : (s.board.set k ⟨ck.name, true, ck.matched⟩).get? j = some cj := by
    rw [List.get?_set_ne _ _ (Ne.symm hjk)]; exact hcj
  have e1 : MatchGame.onCardClick j s
      = { s with board := s.board.set j ⟨cj.name, true, cj.matched⟩,
                 hasFlipped := true,
                 firstCard := some ⟨s.gen, j, cj.name⟩ } :=
    MatchGame.onCardClick_first hlock hcj hfcj hmj hflip
  have e1' : MatchGame.onCardClick k s
      = { s with board := s.board.set k ⟨ck.name, true, ck.matched⟩,
                 hasFlipped := true,
                 firstCard := some ⟨s.gen, k, ck.name⟩ } :=
    MatchGame.onCardClick_first hlock hck hfck hmk hflip
  have hq1 : ((s.board.set j ⟨cj.name, true, cj.matched⟩).set k
        ⟨ck.name, true, ck.matched⟩).get? j = some ⟨cj.name, true, cj.matched⟩ := by
    rw [List.get?_set_ne _ _ (Ne.symm hjk)]
    exact List.get?_set_eq_of_lt _ hjlen
  have hq2 : (((s.board.set j ⟨cj.name, true, cj.matched⟩).set k
        ⟨ck.name, true, ck.matched⟩).set j ⟨cj.name, true, true⟩).get? k
      = some ⟨ck.name, true, ck.matched⟩ := by
    rw [List.get?_set_ne _ _ hjk]
    apply List.get?_set_eq_of_lt
    simpa using hklen
  have hq1' : ((s.board.set k ⟨ck.name, true, ck.matched⟩).set j
        ⟨cj.name, true, cj.matched⟩).get? k = some ⟨ck.name, true, ck.matched⟩ := by
    rw [List.get?_set_ne _ _ hjk]
    exact List.get?_set_eq_of_lt _ hklen
  have hq2' : (((s.board.set k ⟨ck.name, true, ck.matched⟩).set j
        ⟨cj.name, true, cj.matched⟩).set k ⟨ck.name, true, true⟩).get? j
      = some ⟨cj.name, true, cj.matched⟩ := by
    rw [List.get?_set_ne _ _ (Ne.symm hjk)]
    apply List.get?_set_eq_of_lt
    simpa using hjlen
  have hqjB : ((((s.board.set k ⟨ck.name, true, ck.matched⟩).set j
        ⟨cj.name, true, cj.matched⟩).set k ⟨ck.name, true, true⟩).set j
        ⟨cj.name, true, true⟩).get? j = some ⟨cj.name, true, true⟩ := by
    apply List.get?_set_eq_of_lt
    simpa using hjlen
  have hqkB : ((((s.board.set k ⟨ck.name, true, ck.matched⟩).set j
        ⟨cj.name, true, cj.matched⟩).set k ⟨ck.name, true, true⟩).set j
        ⟨cj.name, true, true⟩).get? k = some ⟨ck.name, true, true⟩ := by
    rw [List.get?_set_ne _ _ hjk]
    apply List.get?_set_eq_of_lt
    simpa using hklen
  have hflip1 : (MatchGame.onCardClick j s).hasFlipped = true := by rw [e1]
  have hlock1 : (MatchGame.onCardClick j s).lockBoard = false := by
    rw [e1]; exact hlock
  have hck1 : (MatchGame.onCardClick j s).board.get? k = some ck := by
    rw [e1]; exact hck2
  have hfc1 : (MatchGame.onCardClick j s).firstCard
      ≠ some ⟨(MatchGame.onCardClick j s).gen, k, ck.name⟩ := by
    rw [e1]; simp [hjk]
  rw [MatchGame.onCardClick_second hlock1 hck1 hfc1 hmk hflip1]
  rw [e1]
  dsimp only
  rw [MatchGame.checkMatch_match rfl rfl hname]
  dsimp only
  rw [@MatchGame.markRef_mk ⟨s.gen, j, cj.name⟩ s.gen
      ((s.board.set j ⟨cj.name, true, cj.matched⟩).set k ⟨ck.name, true, ck.matched⟩)
      ⟨cj.name, true, cj.matched⟩ rfl hq1]
  dsimp only
  rw [@MatchGame.markRef_mk ⟨s.gen, k, ck.name⟩ s.gen
      (((s.board.set j ⟨cj.name, true, cj.matched⟩).set k
        ⟨ck.name, true, ck.matched⟩).set j ⟨cj.name, true, true⟩)
      ⟨ck.name, true, ck.matched⟩ rfl hq2]
  dsimp only
  have hflip1' : (MatchGame.onCardClick k s).hasFlipped = true := by rw [e1']
  have hlock1' : (MatchGame.onCardClick k s).lockBoard = false := by
    rw [e1']; exact hlock
  have hcj1' : (MatchGame.onCardClick k s).board.get? j = some cj := by
    rw [e1']; exact hcj2
  have hfc1' : (MatchGame.onCardClick k s).firstCard
      ≠ some ⟨(MatchGame.onCardClick k s).gen, j, cj.name⟩ := by
    rw [e1']; simp [Ne.symm hjk]
  rw [MatchGame.onCardClick_second hlock1' hcj1' hfc1' hmj hflip1']
  rw [e1']
  dsimp only
  rw [MatchGame.checkMatch_match rfl rfl hname.symm]
  dsimp only
  rw [@MatchGame.markRef_mk ⟨s.gen, k, ck.name⟩ s.gen
      ((s.board.set k ⟨ck.name, true, ck.matched⟩).set j ⟨cj.name, true, cj.matched⟩)
      ⟨ck.name, true, ck.matched⟩ rfl hq1']
  dsimp only
  rw [@MatchGame.markRef_mk ⟨s.gen, j, cj.name⟩ s.gen
      (((s.board.set k ⟨ck.name, true, ck.matched⟩).set j
        ⟨cj.name, true, cj.matched⟩).set k ⟨ck.name, true, true⟩)
      ⟨cj.name, true, cj.matched⟩ rfl hq2']
  dsimp only
  rw [MatchGame.set_swap_pairs s.board hjk]
  by_cases hwin : s.pairsMatched + 1 = s.totalPairs
  · simp only [if_pos hwin]
    refine ⟨?_, ?_, ?_, ?_, rfl, rfl, rfl, rfl, rfl, rfl, rfl,
            fun _ => ⟨rfl, rfl⟩, fun hno => absurd hwin hno, rfl⟩
    · rw [MatchGame.boardGet_eq hqjB]
    · rw [MatchGame.boardGet_eq hqkB]
    · rw [MatchGame.boardGet_eq hqjB]
    · rw [MatchGame.boardGet_eq hqkB]
  · simp only [if_neg hwin]
    refine ⟨?_, ?_, ?_, ?_, rfl, rfl, rfl, rfl, rfl, rfl, rfl,
            fun hyes => absurd hyes hwin, fun _ => ⟨rfl, rfl⟩, rfl⟩
    · rw [MatchGame.boardGet_eq hqjB]
    · rw [MatchGame.boardGet_eq hqkB]
    · rw [MatchGame.boardGet_eq hqjB]
    · rw [MatchGame.boardGet_eq hqkB]

/-- C4 witness: in the easy round, selecting the two `bulbasaur` cards
(positions 0 and 1, in either order) matches both and advances the pair
counters. -/
theorem c4_match_selection_witness :
    (MatchGame.boardGet (MatchGame.onCardClick 1
        (MatchGame.onCardClick 0 MatchGame.sPlay)) 0).matched = true ∧
    (MatchGame.boardGet (MatchGame.onCardClick 1
        (MatchGame.onCardClick 0 MatchGame.sPlay)) 1).matched = true ∧
    (MatchGame.onCardClick 1 (MatchGame.onCardClick 0 MatchGame.sPlay)).pairsMatched
      = MatchGame.sPlay.pairsMatched + 1 ∧
    MatchGame.onCardClick 1 (MatchGame.onCardClick 0 MatchGame.sPlay)
      = MatchGame.onCardClick 0 (MatchGame.onCardClick 1 MatchGame.sPlay) := by
  have h := c4_match_selection MatchGame.sPlay 0 1
      ⟨"bulbasaur", false, false⟩ ⟨"bulbasaur", false, false⟩
      (by decide) (by decide) (by decide) (by decide) (by decide)
      (by decide) (by decide) (by decide) (by decide)
  exact ⟨h.1, h.2.1, h.2.2.2.2.1, h.2.2.2.2.2.2.2.2.2.2.2.2.2⟩

namespace MatchGame

lemma countP_set_congr {b : List Slot} {p : Slot → Bool} :
    ∀ {i : Nat} {c c' : Slot}, b.get? i = some c → p c' = p c →
      (b.set i c').countP p = b.countP p := by
  induction b with
  | nil => intro i c c' h _; cases h
  | cons x xs ih =>
      intro i c c' h he
      cases i with
      | zero =>
          cases h
          simp [List.set, List.countP_cons, he]
      | succ n =>
          simp only [List.get?] at h
          simp [List.set, List.countP_cons, ih h he]

lemma countP_set_off {b : List Slot} {p : Slot → Bool} :
    ∀ {i : Nat} {c c' : Slot}, b.get? i = some c → p c = true → p c' = false →
      (b.set i c').countP p + 1 = b.countP p := by
  induction b with
  | nil => intro i c c' h _ _; cases h
  | cons x xs ih =>
      intro i c c' h hc hc'
      cases i with
      | zero =>
          cases h
          simp [List.set, List.countP_cons, hc, hc']
      | succ n =>
          simp only [List.get?] at h
          have := ih h hc hc'
          simp [List.set, List.countP_cons]
          omega

lemma countP_unmatched_set_flip {b : List Slot} {i : Nat} {c : Slot}
    (hc : b.get? i = some c) :
    (b.set i ⟨c.name, true, c.matched⟩).countP (fun x => !x.matched)
      = b.countP (fun x => !x.matched) :=
  @countP_set_congr b (fun x => !x.matched) i c ⟨c.name, true, c.matched⟩ hc rfl

lemma one_le_countP {b : List Slot} {p : Slot → Bool} {i : Nat} {c : Slot}
    (h : b.get? i = some c) (hc : p c = true) : 1 ≤ b.countP p :=
  List.countP_pos.mpr ⟨c, List.get?_mem h, hc⟩

lemma two_le_countP {b : List Slot} {p : Slot → Bool} :
    ∀ {i j : Nat} {ci cj : Slot}, i ≠ j → b.get? i = some ci →
      b.get? j = some cj → p ci = true → p cj = true → 2 ≤ b.countP p := by
  induction b with
  | nil => intro i j ci cj _ h _ _ _; cases h
  | cons x xs ih =>
      intro i j ci cj hij hi hj hpi hpj
      cases i with
      | zero =>
          have hx : x = ci := by simpa using hi
          cases j with
          | zero => exact absurd rfl hij
          | succ m =>
              have hj2 : xs.get? m = some cj := by simpa using hj
              have h1 : 1 ≤ xs.countP p := one_le_countP hj2 hpj
              have hc : (x :: xs).countP p = xs.countP p + 1 := by
                simp [List.countP_cons, hx, hpi]
              omega
      | succ n =>
          have hi2 : xs.get? n = some ci := by simpa using hi
          cases j with
          | zero =>
              have hx : x = cj := by simpa using hj
              have h1 : 1 ≤ xs.countP p := one_le_countP hi2 hpi
              have hc : (x :: xs).countP p = xs.countP p + 1 := by
                simp [List.countP_cons, hx, hpj]
              omega
          | succ m =>
              have hj2 : xs.get? m = some cj := by simpa using hj
              have h2 := ih (fun h => hij (by rw [h])) hi2 hj2 hpi hpj
              have hc : xs.countP p ≤ (x :: xs).countP p := by
                rw [List.countP_cons]
                omega
              omega

lemma countP_map_pres {b : List Slot} {p : Slot → Bool} {g : Slot → Slot}
    (hg : ∀ c, p (g c) = p c) : (b.map g).countP p = b.countP p := by
  induction b with
  | nil => rfl
  | cons x xs ih => simp [List.countP_cons, ih, hg]

lemma countP_erase_of_neg {p : Task → Bool} :
    ∀ (l : List Task) (x : Task), p x = false →
      (l.erase x).countP p = l.countP p := by
  intro l x hx
  induction l with
  | nil => rfl
  | cons a as ih =>
      rw [List.erase_cons]
      by_cases hax : a = x
      · subst hax
        simp [List.countP_cons, hx]
      · simp [hax, List.countP_cons, ih]

lemma length_le_one_of_all_eq {l : List Nat} (hnd : l.Nodup) (v : Nat)
    (h : ∀ x ∈ l, x = v) : l.length ≤ 1 := by
  cases l with
  | nil => simp
  | cons a as =>
      have ha : a = v := h a (by simp)
      have : as = [] := by
        apply List.eq_nil_iff_forall_not_mem.mpr
        intro y hy
        have hyv : y = v := h y (by simp [hy])
        have : a ∉ as := (List.nodup_cons.mp hnd).1
        exact this (by rw [ha, ← hyv]; exact hy)
      simp [this]

lemma length_le_two_of_subpair {l : List Nat} (hnd : l.Nodup) (u v : Nat)
    (h : ∀ x ∈ l, x = u ∨ x = v) : l.length ≤ 2 := by
  cases l with
  | nil => simp
  | cons a as =>
      have hnd' := List.nodup_cons.mp hnd
      have has : ∀ y ∈ as, y = u ∨ y = v := fun y hy => h y (by simp [hy])
      rcases h a (by simp) with ha | ha
      · have hv : ∀ y ∈ as, y = v := by
          intro y hy
          rcases has y hy with h1 | h1
          · exact absurd ((h1.trans ha.symm) ▸ hy) hnd'.1
          · exact h1
        have := length_le_one_of_all_eq hnd'.2 v hv
        simp only [List.length_cons]
        omega
      · have hu : ∀ y ∈ as, y = u := by
          intro y hy
          rcases has y hy with h1 | h1
          · exact h1
          · exact absurd ((h1.trans ha.symm) ▸ hy) hnd'.1
        have := length_le_one_of_all_eq hnd'.2 u hu
        simp only [List.length_cons]
        omega

lemma swapL_length (arr : List α) (i j : Nat) : (swapL arr i j).length = arr.length := by
  unfold swapL
  split
  · simp
  · rfl

lemma fyAux_length : ∀ (i : Nat) (js : List Nat) (arr : List α),
    (fyAux arr i js).length = arr.length := by
  intro i
  induction i with
  | zero => intro js arr; rfl
  | succ n ih =>
      intro js arr
      cases js with
      | nil => rfl
      | cons j js' => rw [fyAux, ih, swapL_length]

lemma shuffle_length (arr : List α) (js : List Nat) :
    (shuffle arr js).length = arr.length := by
  unfold shuffle
  exact fyAux_length _ _ _

lemma generateDeck_length (pokes : List Poke) :
    (generateDeck pokes).length = 2 * pokes.length := by
  induction pokes with
  | nil => rfl
  | cons p ps ih =>
      simp only [generateDeck] at ih ⊢
      simp [List.flatMap_cons, ih]
      omega

end MatchGame

namespace MatchGame

lemma countP_erase_of_pos {p : Task → Bool} :
    ∀ (l : List Task) (x : Task), x ∈ l → p x = true →
      (l.erase x).countP p + 1 = l.countP p := by
  intro l x hx hpx
  induction l with
  | nil => cases hx
  | cons a as ih =>
      rw [List.erase_cons]
      by_cases hax : a = x
      · subst hax
        simp [List.countP_cons, hpx]
      · have hx' : x ∈ as := by
          rcases List.mem_cons.mp hx with h1 | h1
          · exact absurd h1.symm hax
          · exact h1
        simp only [beq_iff_eq, if_neg hax, List.countP_cons]
        rw [← ih hx']
        omega

lemma countP_le_one_unique {p : Task → Bool} {l : List Task} {x y : Task}
    (hc : l.countP p ≤ 1) (hx : x ∈ l) (hy : y ∈ l)
    (hpx : p x = true) (hpy : p y = true) : x = y := by
  by_contra hne
  have h1 := countP_erase_of_pos l x hx hpx
  have hy' : y ∈ l.erase x := (List.mem_erase_of_ne (fun h => hne h.symm)).mpr hy
  have h2 : 0 < (l.erase x).countP p := List.countP_pos.mpr ⟨y, hy', hpy⟩
  omega

lemma get?_boardGet {s : GameState} {i : Nat} (h : i < s.board.length) :
    s.board.get? i = some (boardGet s i) := by
  cases hc : s.board.get? i with
  | none => exact absurd (List.get?_eq_none.mp hc) (Nat.not_le_of_lt h)
  | some c => rw [boardGet_eq hc]

lemma get?_unflipRef_ne (r : Ref) (g : Nat) (bd : List Slot) (i : Nat)
    (h : ¬(r.gen = g ∧ i = r.idx)) :
    (unflipRef r g bd).get? i = bd.get? i := by
  unfold unflipRef
  split
  · split
    · rw [List.get?_set_ne]
      intro he
      exact h ⟨by assumption, he.symm⟩
    · rfl
  · rfl

lemma flip_unflipRef_self (r : Ref) (g : Nat) (bd : List Slot)
    (h : r.gen = g) :
    (((unflipRef r g bd).get? r.idx).getD ⟨"", false, false⟩).flip = false := by
  unfold unflipRef
  rw [if_pos h]
  cases hc : bd.get? r.idx with
  | none =>
      rw [hc]
      rfl
  | some c =>
      have hlt : r.idx < bd.length := lt_length_of_get? hc
      rw [List.get?_set_eq_of_lt _ (by simpa using hlt)]
      rfl

lemma countP_unflipRef (r : Ref) (g : Nat) (bd : List Slot) :
    (unflipRef r g bd).countP (fun c => !c.matched)
      = bd.countP (fun c => !c.matched) := by
  unfold unflipRef
  split
  · cases hc : bd.get? r.idx with
    | none => rfl
    | some c => exact countP_set_congr hc rfl
  · rfl

lemma onCardClick_none {s : GameState} {i : Nat}
    (hc : s.board.get? i = none) : onCardClick i s = s := by
  unfold onCardClick
  split
  · rfl
  · rw [hc]

lemma onCardClick_selfFirst {s : GameState} {i : Nat} {c : Slot}
    (hc : s.board.get? i = some c)
    (hfg : s.firstCard = some ⟨s.gen, i, c.name⟩) : onCardClick i s = s := by
  unfold onCardClick
  split
  · rfl
  · rw [hc]
    simp [hfg]

lemma onCardClick_matchedCard {s : GameState} {i : Nat} {c : Slot}
    (hc : s.board.get? i = some c) (hm : c.matched = true) :
    onCardClick i s = s := by
  by_cases hl : s.lockBoard = true
  · exact onCardClick_locked i hl
  · by_cases hfg : s.firstCard = some ⟨s.gen, i, c.name⟩
    · exact onCardClick_selfFirst hc hfg
    · unfold onCardClick
      rw [if_neg hl, hc]
      dsimp only
      rw [if_neg hfg, if_pos hm]

end MatchGame

namespace MatchGame

lemma inv_tick (s : GameState) (h : Inv s) : Inv (timerTick s) := by
  unfold timerTick
  dsimp only
  split
  · exact { sumEq := h.sumEq, uBound := h.uBound, uBoundStale := h.uBoundStale,
            flipSome := h.flipSome, flipNone := h.flipNone,
            firstGenLe := h.firstGenLe, firstWf := h.firstWf,
            timerMsg := fun ht => (nomatch ht),
            revertUniq := h.revertUniq, revertLock := fun _ _ _ => rfl,
            genBound := h.genBound, fuClause := h.fuClause }
  · exact { sumEq := h.sumEq, uBound := h.uBound, uBoundStale := h.uBoundStale,
            flipSome := h.flipSome, flipNone := h.flipNone,
            firstGenLe := h.firstGenLe, firstWf := h.firstWf,
            timerMsg := h.timerMsg,
            revertUniq := h.revertUniq, revertLock := h.revertLock,
            genBound := h.genBound, fuClause := h.fuClause }

lemma inv_reset (s : GameState) (h : Inv s) : Inv (resetGame s) := by
  refine { sumEq := rfl, uBound := ?_, uBoundStale := ?_,
           flipSome := h.flipSome, flipNone := h.flipNone,
           firstGenLe := ?_, firstWf := ?_,
           timerMsg := fun ht => (nomatch ht),
           revertUniq := h.revertUniq, revertLock := h.revertLock,
           genBound := ?_, fuClause := ?_ }
  · simp [unmatchedCount, resetGame]
  · intro _
    simp [unmatchedCount, resetGame]
  · intro f hf
    exact Nat.le_succ_of_le (h.firstGenLe f hf)
  · intro f hf hg
    have h1 := h.firstGenLe f hf
    have h2 : (resetGame s).gen = s.gen + 1 := rfl
    rw [h2] at hg
    exfalso
    omega
  · intro g hg
    exact Nat.le_succ_of_le (h.genBound g hg)
  · intro _ i hfu
    exact absurd hfu (by simp [fuAt, boardGet, resetGame])

lemma inv_power (s : GameState) (h : Inv s) : Inv (handlePowerUp s) := by
  have hpres : ∀ c : Slot,
      (!(if c.matched then c else { c with flip := true }).matched) = (!c.matched) := by
    intro c
    by_cases hc : c.matched <;> simp [hc]
  have hu : unmatchedCount (handlePowerUp s) = unmatchedCount s := by
    unfold unmatchedCount handlePowerUp
    exact countP_map_pres hpres
  refine { sumEq := h.sumEq, uBound := ?_, uBoundStale := ?_,
           flipSome := h.flipSome, flipNone := h.flipNone,
           firstGenLe := h.firstGenLe, firstWf := ?_,
           timerMsg := h.timerMsg,
           revertUniq := ?_, revertLock := ?_,
           genBound := ?_, fuClause := ?_ }
  · rw [hu]; exact h.uBound
  · intro hst
    rw [hu]
    exact h.uBoundStale hst
  · intro f hf hg
    obtain ⟨h1, h2, h3⟩ := h.firstWf f hf hg
    have hq := get?_boardGet h1
    refine ⟨by simpa [handlePowerUp] using h1, ?_, ?_⟩
    · unfold boardGet handlePowerUp
      dsimp only
      rw [List.get?_map, hq]
      by_cases hm : (boardGet s f.idx).matched <;> simp [hm] <;> simp [hm] at h2 ⊢
    · unfold boardGet handlePowerUp
      dsimp only
      rw [List.get?_map, hq]
      by_cases hm : (boardGet s f.idx).matched <;> simp [hm] <;> simp_all [boardGet]
  · unfold countReverts handlePowerUp
    dsimp only
    rw [List.countP_cons]
    simpa [isRevert] using h.revertUniq
  · intro a b hmem
    rcases List.mem_cons.mp hmem with h1 | h1
    · cases h1
    · exact h.revertLock a b h1
  · intro g hg
    rcases List.mem_cons.mp hg with h1 | h1
    · cases h1; exact le_refl _
    · exact h.genBound g h1
  · intro hncr
    exact absurd (List.mem_cons_self _ _) hncr

end MatchGame

namespace MatchGame

lemma inv_start (diff : String) (pokes : List Poke) (js : List Nat)
    (s : GameState) (hp : pokes.length = pairsFor diff) (h : Inv s) :
    Inv (startGame diff pokes js s) := by
  have hlen : (startGame diff pokes js s).board.length = 2 * pairsFor diff := by
    unfold startGame
    dsimp only
    rw [List.length_map, shuffle_length, generateDeck_length, hp]
  have hall : ∀ c ∈ (startGame diff pokes js s).board, (!c.matched) = true := by
    intro c hcmem
    unfold startGame at hcmem
    dsimp only at hcmem
    obtain ⟨q, _, rfl⟩ := List.mem_map.mp hcmem
    rfl
  have hu : unmatchedCount (startGame diff pokes js s) = 2 * pairsFor diff := by
    unfold unmatchedCount
    rw [List.countP_eq_length.mpr hall, hlen]
  have hpl : (startGame diff pokes js s).pairsLeft = pairsFor diff := rfl
  refine { sumEq := by simp [startGame], uBound := ?_, uBoundStale := ?_,
           flipSome := h.flipSome, flipNone := h.flipNone,
           firstGenLe := ?_, firstWf := ?_, timerMsg := fun _ => rfl,
           revertUniq := h.revertUniq, revertLock := h.revertLock,
           genBound := ?_, fuClause := ?_ }
  · rw [hu, hpl]
    omega
  · intro _
    rw [hu, hpl]
  · intro f hf
    exact Nat.le_succ_of_le (h.firstGenLe f hf)
  · intro f hf hg
    have h1 := h.firstGenLe f hf
    have h2 : (startGame diff pokes js s).gen = s.gen + 1 := rfl
    rw [h2] at hg
    exfalso
    omega
  · intro g hg
    exact Nat.le_succ_of_le (h.genBound g hg)
  · intro _ i hfu
    exfalso
    unfold fuAt boardGet startGame at hfu
    dsimp only at hfu
    rw [List.get?_map] at hfu
    cases hq : (shuffle (generateDeck pokes) js).get? i with
    | none => rw [hq] at hfu; simp at hfu
    | some q => rw [hq] at hfu; simp at hfu

end MatchGame

namespace MatchGame

lemma inv_fire (t : Task) (s : GameState) (ht : t ∈ s.tasks) (h : Inv s) :
    Inv (fireTask t s) := by
  cases t with
  | cooldown cd =>
      have hrevmem : ∀ x y : Ref,
          Task.revert x y ∈ s.tasks.erase (Task.cooldown cd)
            ↔ Task.revert x y ∈ s.tasks := by
        intro x y
        exact ⟨List.mem_of_mem_erase, fun hm => (List.mem_erase_of_ne (by simp)).mpr hm⟩
      have hrevealmem : ∀ g : Nat,
          Task.revealEnd g ∈ s.tasks.erase (Task.cooldown cd)
            ↔ Task.revealEnd g ∈ s.tasks := by
        intro g
        exact ⟨List.mem_of_mem_erase, fun hm => (List.mem_erase_of_ne (by simp)).mpr hm⟩
      have hcr : (s.tasks.erase (Task.cooldown cd)).countP isRevert
          = s.tasks.countP isRevert :=
        countP_erase_of_neg s.tasks (Task.cooldown cd) rfl
      unfold fireTask
      dsimp only
      split
      · refine { sumEq := h.sumEq, uBound := h.uBound, uBoundStale := h.uBoundStale,
                 flipSome := h.flipSome, flipNone := h.flipNone,
                 firstGenLe := h.firstGenLe, firstWf := h.firstWf,
                 timerMsg := h.timerMsg, revertUniq := ?_, revertLock := ?_,
                 genBound := ?_, fuClause := ?_ }
        · show (s.tasks.erase (Task.cooldown cd)).countP isRevert ≤ 1
          rw [hcr]
          exact h.revertUniq
        · intro x y hm
          exact h.revertLock x y ((hrevmem x y).mp hm)
        · intro g hg
          exact h.genBound g ((hrevealmem g).mp hg)
        · intro hncr i hfu
          have hncr0 : noCurReveal s := fun hmem => hncr ((hrevealmem s.gen).mpr hmem)
          rcases h.fuClause hncr0 i hfu with ⟨x, y, hm, hd⟩ | ⟨hc0, f, hf, hfg, hfi⟩
          · exact Or.inl ⟨x, y, (hrevmem x y).mpr hm, hd⟩
          · refine Or.inr ⟨?_, f, hf, hfg, hfi⟩
            show (s.tasks.erase (Task.cooldown cd)).countP isRevert = 0
            rw [hcr]
            exact hc0
      · refine { sumEq := h.sumEq, uBound := h.uBound, uBoundStale := h.uBoundStale,
                 flipSome := h.flipSome, flipNone := h.flipNone,
                 firstGenLe := h.firstGenLe, firstWf := h.firstWf,
                 timerMsg := h.timerMsg, revertUniq := ?_, revertLock := ?_,
                 genBound := ?_, fuClause := ?_ }
        · show (Task.cooldown (cd - 1) :: s.tasks.erase (Task.cooldown cd)).countP isRevert ≤ 1
          rw [List.countP_cons]
          simp only [isRevert]
          rw [hcr]
          simpa using h.revertUniq
        · intro x y hm
          rcases List.mem_cons.mp hm with h1 | h1
          · cases h1
          · exact h.revertLock x y ((hrevmem x y).mp h1)
        · intro g hg
          rcases List.mem_cons.mp hg with h1 | h1
          · cases h1
          · exact h.genBound g ((hrevealmem g).mp h1)
        · intro hncr i hfu
          have hncr0 : noCurReveal s := fun hmem =>
            hncr (List.mem_cons_of_mem _ ((hrevealmem s.gen).mpr hmem))
          rcases h.fuClause hncr0 i hfu with ⟨x, y, hm, hd⟩ | ⟨hc0, f, hf, hfg, hfi⟩
          · exact Or.inl ⟨x, y, List.mem_cons_of_mem _ ((hrevmem x y).mpr hm), hd⟩
          · refine Or.inr ⟨?_, f, hf, hfg, hfi⟩
            have hc1 : (Task.cooldown (cd - 1)
                  :: s.tasks.erase (Task.cooldown cd)).countP isRevert
                = s.tasks.countP isRevert := by
              rw [List.countP_cons]
              simp only [isRevert]
              simpa using hcr
            show (Task.cooldown (cd - 1) :: s.tasks.erase (Task.cooldown cd)).countP isRevert = 0
            rw [hc1]
            exact hc0
  | revealEnd g =>
      have hrevmem : ∀ x y : Ref,
          Task.revert x y ∈ s.tasks.erase (Task.revealEnd g)
            ↔ Task.revert x y ∈ s.tasks := by
        intro x y
        exact ⟨List.mem_of_mem_erase, fun hm => (List.mem_erase_of_ne (by simp)).mpr hm⟩
      have hcr : (s.tasks.erase (Task.revealEnd g)).countP isRevert
          = s.tasks.countP isRevert :=
        countP_erase_of_neg s.tasks (Task.revealEnd g) rfl
      have hcr2 : (Task.cooldown COOLDOWN :: s.tasks.erase (Task.revealEnd g)).countP isRevert
          = s.tasks.countP isRevert := by
        rw [List.countP_cons]
        simp only [isRevert]
        simpa using hcr
      have hpres : ∀ c : Slot,
          (!(if c.matched then c else { c with flip := false }).matched) = (!c.matched) := by
        intro c
        by_cases hc : c.matched <;> simp [hc]
      by_cases hgg : g = s.gen
      · have e : fireTask (Task.revealEnd g) s
            = { s with tasks := Task.cooldown COOLDOWN :: s.tasks.erase (Task.revealEnd g),
                       board := s.board.map (fun c => if c.matched then c else { c with flip := false }) } := by
          unfold fireTask
          dsimp only
          rw [if_pos hgg]
        rw [e]
        refine { sumEq := h.sumEq, uBound := ?_, uBoundStale := ?_,
                 flipSome := h.flipSome, flipNone := h.flipNone,
                 firstGenLe := h.firstGenLe, firstWf := ?_,
                 timerMsg := h.timerMsg, revertUniq := ?_, revertLock := ?_,
                 genBound := ?_, fuClause := ?_ }
        · show (s.board.map _).countP _ ≤ 2 * s.pairsLeft + 1
          rw [countP_map_pres hpres]
          exact h.uBound
        · intro hst
          show (s.board.map _).countP _ ≤ 2 * s.pairsLeft
          rw [countP_map_pres hpres]
          exact h.uBoundStale hst
        · intro f hf hg2
          obtain ⟨h1, h2, h3⟩ := h.firstWf f hf hg2
          have hq := get?_boardGet h1
          refine ⟨by simpa using h1, ?_, ?_⟩
          · unfold boardGet
            dsimp only
            rw [List.get?_map, hq]
            by_cases hm : (boardGet s f.idx).matched <;> simp [hm] <;> simp [hm] at h2 ⊢
          · unfold boardGet
            dsimp only
            rw [List.get?_map, hq]
            by_cases hm : (boardGet s f.idx).matched <;> simp [hm] <;> simp_all [boardGet]
        · show (Task.cooldown COOLDOWN :: s.tasks.erase (Task.revealEnd g)).countP isRevert ≤ 1
          rw [hcr2]
          exact h.revertUniq
        · intro x y hm
          rcases List.mem_cons.mp hm with h1 | h1
          · cases h1
          · exact h.revertLock x y ((hrevmem x y).mp h1)
        · intro g2 hg2
          rcases List.mem_cons.mp hg2 with h1 | h1
          · cases h1
          · exact h.genBound g2 (List.mem_of_mem_erase h1)
        · intro _ i hfu
          exfalso
          unfold fuAt boardGet at hfu
          dsimp only at hfu
          rw [List.get?_map] at hfu
          cases hq : s.board.get? i with
          | none => rw [hq] at hfu; simp at hfu
          | some c =>
              rw [hq] at hfu
              by_cases hm : c.matched <;> simp [hm] at hfu
      · have e : fireTask (Task.revealEnd g) s
            = { s with tasks := Task.cooldown COOLDOWN :: s.tasks.erase (Task.revealEnd g) } := by
          unfold fireTask
          dsimp only
          rw [if_neg hgg]
        rw [e]
        refine { sumEq := h.sumEq, uBound := h.uBound, uBoundStale := h.uBoundStale,
                 flipSome := h.flipSome, flipNone := h.flipNone,
                 firstGenLe := h.firstGenLe, firstWf := h.firstWf,
                 timerMsg := h.timerMsg, revertUniq := ?_, revertLock := ?_,
                 genBound := ?_, fuClause := ?_ }
        · show (Task.cooldown COOLDOWN :: s.tasks.erase (Task.revealEnd g)).countP isRevert ≤ 1
          rw [hcr2]
          exact h.revertUniq
        · intro x y hm
          rcases List.mem_cons.mp hm with h1 | h1
          · cases h1
          · exact h.revertLock x y ((hrevmem x y).mp h1)
        · intro g2 hg2
          rcases List.mem_cons.mp hg2 with h1 | h1
          · cases h1
          · exact h.genBound g2 (List.mem_of_mem_erase h1)
        · intro hncr i hfu
          have hncr0 : noCurReveal s := by
            intro hmem
            refine hncr (List.mem_cons_of_mem _ ?_)
            refine (List.mem_erase_of_ne ?_).mpr hmem
            intro hcon
            injection hcon with h2
            exact hgg h2.symm
          rcases h.fuClause hncr0 i hfu with ⟨x, y, hm, hd⟩ | ⟨hc0, f, hf, hfg, hfi⟩
          · exact Or.inl ⟨x, y, List.mem_cons_of_mem _ ((hrevmem x y).mpr hm), hd⟩
          · refine Or.inr ⟨?_, f, hf, hfg, hfi⟩
            show (Task.cooldown COOLDOWN :: s.tasks.erase (Task.revealEnd g)).countP isRevert = 0
            rw [hcr2]
            exact hc0
  | revert a b =>
      have e : fireTask (Task.revert a b) s
          = { s with tasks := s.tasks.erase (Task.revert a b),
                     board := unflipRef b s.gen (unflipRef a s.gen s.board),
                     hasFlipped := false, lockBoard := false,
                     firstCard := none, secondCard := none } := rfl
      rw [e]
      have h1r : s.tasks.countP isRevert ≤ 1 := h.revertUniq
      have hcnt : (s.tasks.erase (Task.revert a b)).countP isRevert + 1
          = s.tasks.countP isRevert :=
        countP_erase_of_pos s.tasks (Task.revert a b) ht rfl
      have hzero : (s.tasks.erase (Task.revert a b)).countP isRevert = 0 := by omega
      have hnomem : ∀ x y : Ref, Task.revert x y ∉ s.tasks.erase (Task.revert a b) := by
        intro x y hm
        have := List.countP_pos.mpr ⟨_, hm, (rfl : isRevert (Task.revert x y) = true)⟩
        omega
      have hu : unmatchedCount { s with
            tasks := s.tasks.erase (Task.revert a b),
            board := unflipRef b s.gen (unflipRef a s.gen s.board),
            hasFlipped := false, lockBoard := false,
            firstCard := none, secondCard := none }
          = unmatchedCount s := by
        unfold unmatchedCount
        dsimp only
        rw [countP_unflipRef, countP_unflipRef]
      refine { sumEq := h.sumEq, uBound := ?_, uBoundStale := ?_,
               flipSome := fun habs => (nomatch habs),
               flipNone := fun _ => rfl,
               firstGenLe := fun f hf => (nomatch hf),
               firstWf := fun f hf => (nomatch hf),
               timerMsg := h.timerMsg, revertUniq := ?_, revertLock := ?_,
               genBound := ?_, fuClause := ?_ }
      · rw [hu]
        exact h.uBound
      · intro hst
        exfalso
        obtain ⟨f, hf, _⟩ := hst
        exact (nomatch hf)
      · show (s.tasks.erase (Task.revert a b)).countP isRevert ≤ 1
        omega
      · intro x y hm
        exact absurd hm (hnomem x y)
      · intro g hg
        exact h.genBound g (List.mem_of_mem_erase hg)
      · intro hncr i hfu
        exfalso
        have hncr0 : noCurReveal s := fun hmem =>
          hncr ((List.mem_erase_of_ne (by simp)).mpr hmem)
        unfold fuAt boardGet at hfu
        dsimp only at hfu
        by_cases hib : b.gen = s.gen ∧ i = b.idx
        · obtain ⟨hbg, hbi⟩ := hib
          subst hbi
          rw [flip_unflipRef_self b s.gen (unflipRef a s.gen s.board) hbg] at hfu
          simp at hfu
        · rw [get?_unflipRef_ne b s.gen _ i hib] at hfu
          by_cases hia : a.gen = s.gen ∧ i = a.idx
          · obtain ⟨hag, hai⟩ := hia
            subst hai
            rw [flip_unflipRef_self a s.gen s.board hag] at hfu
            simp at hfu
          · rw [get?_unflipRef_ne a s.gen _ i hia] at hfu
            have hfu0 : fuAt s i = true := by
              unfold fuAt boardGet
              exact hfu
            rcases h.fuClause hncr0 i hfu0 with ⟨x, y, hm, hd⟩ | ⟨hc0, f, hf, hfg, hfi⟩
            · have hxy : Task.revert x y = Task.revert a b :=
                countP_le_one_unique h1r hm ht rfl rfl
              injection hxy with hx hy
              subst hx
              subst hy
              rcases hd with hd | hd
              · exact hia hd
              · exact hib hd
            · have hpos := List.countP_pos.mpr
                ⟨_, ht, (rfl : isRevert (Task.revert a b) = true)⟩
              have hc0' : s.tasks.countP isRevert = 0 := hc0
              omega

end MatchGame

namespace MatchGame

lemma inv_click (i : Nat) (s : GameState) (h : Inv s) : Inv (onCardClick i s) := by
  by_cases hl : s.lockBoard = true
  · rw [onCardClick_locked i hl]
    exact h
  have hl' : s.lockBoard = false := by
    revert hl
    cases s.lockBoard <;> simp
  cases hc : s.board.get? i with
  | none =>
      rw [onCardClick_none hc]
      exact h
  | some c =>
  by_cases hfg : s.firstCard = some ⟨s.gen, i, c.name⟩
  · rw [onCardClick_selfFirst hc hfg]
    exact h
  by_cases hmT : c.matched = true
  · rw [onCardClick_matchedCard hc hmT]
    exact h
  have hm : c.matched = false := by
    revert hmT
    cases c.matched <;> simp
  have hilen : i < s.board.length := lt_length_of_get? hc
  have hnorev : ∀ x y : Ref, Task.revert x y ∉ s.tasks := by
    intro x y hmem
    have hlk := h.revertLock x y hmem
    rw [hl'] at hlk
    cases hlk
  have hcr0 : countReverts s = 0 := by
    apply List.countP_eq_zero.mpr
    intro t htm
    cases t with
    | revert x y => exact absurd htm (hnorev x y)
    | revealEnd g => simp [isRevert]
    | cooldown cd => simp [isRevert]
  cases hflip : s.hasFlipped with
  | false =>
      rw [onCardClick_first hl' hc hfg hm hflip]
      have hfc0 : s.firstCard = none := h.flipNone hflip
      refine { sumEq := h.sumEq, uBound := ?_, uBoundStale := ?_, flipSome := ?_,
               flipNone := ?_, firstGenLe := ?_, firstWf := ?_,
               timerMsg := h.timerMsg, revertUniq := h.revertUniq,
               revertLock := ?_, genBound := h.genBound, fuClause := ?_ }
      · show (s.board.set i { c with flip := true }).countP (fun x => !x.matched)
            ≤ 2 * s.pairsLeft + 1
        rw [countP_unmatched_set_flip hc]
        exact h.uBound
      · intro hst
        exfalso
        obtain ⟨f, hf, hne⟩ := hst
        have hfe : f = ⟨s.gen, i, c.name⟩ := by
          injection hf with h2
          exact h2.symm
        rw [hfe] at hne
        exact hne rfl
      · intro _
        exact ⟨⟨s.gen, i, c.name⟩, rfl⟩
      · intro habs
        cases habs
      · intro f hf
        have hfe : f = ⟨s.gen, i, c.name⟩ := by
          injection hf with h2
          exact h2.symm
        rw [hfe]
      · intro f hf _
        have hfe : f = ⟨s.gen, i, c.name⟩ := by
          injection hf with h2
          exact h2.symm
        subst hfe
        refine ⟨by simpa using hilen, ?_, ?_⟩
        · show (((s.board.set i { c with flip := true }).get? i).getD
              ⟨"", false, false⟩).matched = false
          rw [List.get?_set_eq_of_lt _ hilen]
          exact hm
        · show (((s.board.set i { c with flip := true }).get? i).getD
              ⟨"", false, false⟩).name = c.name
          rw [List.get?_set_eq_of_lt _ hilen]
          rfl
      · intro x y hmem
        exact absurd hmem (hnorev x y)
      · intro hncr i2 hfu
        right
        refine ⟨hcr0, ⟨s.gen, i, c.name⟩, rfl, rfl, ?_⟩
        by_contra hne
        have hfu0 : fuAt s i2 = true := by
          unfold fuAt boardGet at hfu ⊢
          dsimp only at hfu
          rw [List.get?_set_ne _ _ (fun h2 => hne h2.symm)] at hfu
          exact hfu
        have hncr0 : noCurReveal s := hncr
        rcases h.fuClause hncr0 i2 hfu0 with ⟨x, y, hm2, _⟩ | ⟨_, f, hf, _, _⟩
        · exact absurd hm2 (hnorev x y)
        · rw [hfc0] at hf
          cases hf
  | true =>
      obtain ⟨f, hf⟩ := h.flipSome hflip
      rw [onCardClick_second hl' hc hfg hm hflip]
      have hfMid : ({ s with board := s.board.set i { c with flip := true }, secondCard := some ⟨s.gen, i, c.name⟩, lockBoard := true, clickCount := s.clickCount + 1 } : GameState).firstCard
          = some f := hf
      have hu1 : s.board.countP (fun x => !x.matched) ≤ 2 * s.pairsLeft + 1 :=
        h.uBound
      have hcnt1 : (s.board.set i { c with flip := true }).countP (fun x => !x.matched)
          = s.board.countP (fun x => !x.matched) := countP_unmatched_set_flip hc
      by_cases hn : f.name = c.name
      · rw [checkMatch_match hfMid rfl hn]
        dsimp only
        by_cases hfcur : f.gen = s.gen
        · obtain ⟨hw1, hw2, hw3⟩ := h.firstWf f hf hfcur
          have hqf : s.board.get? f.idx = some (boardGet s f.idx) := get?_boardGet hw1
          have hne_fi : f.idx ≠ i := by
            intro heq
            apply hfg
            rw [hf]
            have he2 : (⟨s.gen, i, c.name⟩ : Ref) = ⟨f.gen, f.idx, f.name⟩ := by
              rw [hfcur, heq, hn]
            rw [he2]
          have hq1 : (s.board.set i { c with flip := true }).get? f.idx
              = some (boardGet s f.idx) := by
            rw [List.get?_set_ne _ _ (fun h2 => hne_fi h2.symm)]
            exact hqf
          rw [@markRef_mk f s.gen (s.board.set i { c with flip := true })
              (boardGet s f.idx) hfcur hq1]
          have hq2 : ((s.board.set i { c with flip := true }).set f.idx
              ⟨(boardGet s f.idx).name, (boardGet s f.idx).flip, true⟩).get? i
              = some { c with flip := true } := by
            rw [List.get?_set_ne _ _ hne_fi]
            exact List.get?_set_eq_of_lt _ hilen
          rw [@markRef_mk ⟨s.gen, i, c.name⟩ s.gen
              ((s.board.set i { c with flip := true }).set f.idx
                ⟨(boardGet s f.idx).name, (boardGet s f.idx).flip, true⟩)
              { c with flip := true } rfl hq2]
          dsimp only
          have hU2 : 2 ≤ s.board.countP (fun x => !x.matched) :=
            two_le_countP hne_fi hqf hc (by rw [hw2]; rfl) (by rw [hm]; rfl)
          have hpl1 : 1 ≤ s.pairsLeft := by omega
          have hcnt2 : (((s.board.set i { c with flip := true }).set f.idx
                ⟨(boardGet s f.idx).name, (boardGet s f.idx).flip, true⟩).countP
                (fun x => !x.matched)) + 1
              = (s.board.set i { c with flip := true }).countP (fun x => !x.matched) :=
            countP_set_off hq1 (by rw [hw2]; rfl) rfl
          have hcnt3 : ((((s.board.set i { c with flip := true }).set f.idx
                ⟨(boardGet s f.idx).name, (boardGet s f.idx).flip, true⟩).set i
                ⟨c.name, true, true⟩).countP (fun x => !x.matched)) + 1
              = (((s.board.set i { c with flip := true }).set f.idx
                ⟨(boardGet s f.idx).name, (boardGet s f.idx).flip, true⟩).countP
                (fun x => !x.matched)) :=
            countP_set_off hq2 (by rw [hm]; rfl) rfl
          have hfu_main : ∀ i2,
              fuAt { s with board := (((s.board.set i { c with flip := true }).set f.idx ⟨(boardGet s f.idx).name, (boardGet s f.idx).flip, true⟩).set i ⟨c.name, true, true⟩), secondCard := some ⟨s.gen, i, c.name⟩, lockBoard := true, clickCount := s.clickCount + 1, pairsMatched := s.pairsMatched + 1, pairsLeft := s.pairsLeft - 1 } i2 = true → noCurReveal s → False := by
            intro i2 hfu hncr0
            unfold fuAt boardGet at hfu
            dsimp only at hfu
            by_cases hii : i2 = i
            · subst hii
              rw [List.get?_set_eq_of_lt _ (by simpa using hilen)] at hfu
              simp at hfu
            · rw [List.get?_set_ne _ _ (fun h2 => hii h2.symm)] at hfu
              by_cases hif : i2 = f.idx
              · subst hif
                rw [List.get?_set_eq_of_lt _ (by simpa using hw1)] at hfu
                simp at hfu
              · rw [List.get?_set_ne _ _ (fun h2 => hif h2.symm)] at hfu
                rw [List.get?_set_ne _ _ (fun h2 => hii h2.symm)] at hfu
                have hfu0 : fuAt s i2 = true := by
                  unfold fuAt boardGet
                  exact hfu
                rcases h.fuClause hncr0 i2 hfu0 with ⟨x, y, hm2, _⟩ | ⟨_, f2, hf2, _, hfi2⟩
                · exact absurd hm2 (hnorev x y)
                · injection hf.symm.trans hf2 with h2
                  rw [← h2] at hfi2
                  exact hif hfi2
          by_cases hwin : s.pairsMatched + 1 = s.totalPairs
          · rw [if_pos hwin]
            refine { sumEq := ?_, uBound := ?_, uBoundStale := ?_,
                     flipSome := fun habs => (nomatch habs),
                     flipNone := fun _ => rfl,
                     firstGenLe := fun f2 hf2 => (nomatch hf2),
                     firstWf := fun f2 hf2 => (nomatch hf2),
                     timerMsg := fun ht => (nomatch ht),
                     revertUniq := h.revertUniq, revertLock := ?_,
                     genBound := h.genBound, fuClause := ?_ }
            · show s.pairsMatched + 1 + (s.pairsLeft - 1) = s.totalPairs
              have := h.sumEq
              omega
            · show ((((s.board.set i { c with flip := true }).set f.idx
                  ⟨(boardGet s f.idx).name, (boardGet s f.idx).flip, true⟩).set i
                  ⟨c.name, true, true⟩).countP (fun x => !x.matched))
                ≤ 2 * (s.pairsLeft - 1) + 1
              omega
            · intro hst
              exfalso
              obtain ⟨f2, hf2, _⟩ := hst
              exact (nomatch hf2)
            · intro x y hmem
              exact absurd hmem (hnorev x y)
            · intro hncr i2 hfu
              exact absurd (hfu_main i2 hfu hncr) id
          · rw [if_neg hwin]
            refine { sumEq := ?_, uBound := ?_, uBoundStale := ?_,
                     flipSome := fun habs => (nomatch habs),
                     flipNone := fun _ => rfl,
                     firstGenLe := fun f2 hf2 => (nomatch hf2),
                     firstWf := fun f2 hf2 => (nomatch hf2),
                     timerMsg := h.timerMsg,
                     revertUniq := h.revertUniq, revertLock := ?_,
                     genBound := h.genBound, fuClause := ?_ }
            · show s.pairsMatched + 1 + (s.pairsLeft - 1) = s.totalPairs
              have := h.sumEq
              omega
            · show ((((s.board.set i { c with flip := true }).set f.idx
                  ⟨(boardGet s f.idx).name, (boardGet s f.idx).flip, true⟩).set i
                  ⟨c.name, true, true⟩).countP (fun x => !x.matched))
                ≤ 2 * (s.pairsLeft - 1) + 1
              omega
            · intro hst
              exfalso
              obtain ⟨f2, hf2, _⟩ := hst
              exact (nomatch hf2)
            · intro x y hmem
              exact absurd hmem (hnorev x y)
            · intro hncr i2 hfu
              exact absurd (hfu_main i2 hfu hncr) id
        · rw [markRef_stale hfcur]
          have hq2s : (s.board.set i { c with flip := true }).get? i
              = some { c with flip := true } := List.get?_set_eq_of_lt _ hilen
          rw [@markRef_mk ⟨s.gen, i, c.name⟩ s.gen
              (s.board.set i { c with flip := true }) { c with flip := true } rfl hq2s]
          dsimp only
          have hst0 : staleFirst s := ⟨f, hf, hfcur⟩
          have hu2 : s.board.countP (fun x => !x.matched) ≤ 2 * s.pairsLeft :=
            h.uBoundStale hst0
          have hU1 : 1 ≤ s.board.countP (fun x => !x.matched) :=
            one_le_countP hc (by rw [hm]; rfl)
          have hpl1 : 1 ≤ s.pairsLeft := by omega
          have hcnt3s : (((s.board.set i { c with flip := true }).set i
                ⟨c.name, true, true⟩).countP (fun x => !x.matched)) + 1
              = ((s.board.set i { c with flip := true }).countP (fun x => !x.matched)) :=
            countP_set_off hq2s (by rw [hm]; rfl) rfl
          have hfu_main : ∀ i2,
              fuAt { s with board := ((s.board.set i { c with flip := true }).set i ⟨c.name, true, true⟩), secondCard := some ⟨s.gen, i, c.name⟩, lockBoard := true, clickCount := s.clickCount + 1, pairsMatched := s.pairsMatched + 1, pairsLeft := s.pairsLeft - 1 } i2 = true → noCurReveal s → False := by
            intro i2 hfu hncr0
            unfold fuAt boardGet at hfu
            dsimp only at hfu
            by_cases hii : i2 = i
            · subst hii
              rw [List.get?_set_eq_of_lt _ (by simpa using hilen)] at hfu
              simp at hfu
            · rw [List.get?_set_ne _ _ (fun h2 => hii h2.symm)] at hfu
              rw [List.get?_set_ne _ _ (fun h2 => hii h2.symm)] at hfu
              have hfu0 : fuAt s i2 = true := by
                unfold fuAt boardGet
                exact hfu
              rcases h.fuClause hncr0 i2 hfu0 with ⟨x, y, hm2, _⟩ | ⟨_, f2, hf2, hfg2, _⟩
              · exact absurd hm2 (hnorev x y)
              · injection hf.symm.trans hf2 with h2
                rw [← h2] at hfg2
                exact hfcur hfg2
          by_cases hwin : s.pairsMatched + 1 = s.totalPairs
          · rw [if_pos hwin]
            refine { sumEq := ?_, uBound := ?_, uBoundStale := ?_,
                     flipSome := fun habs => (nomatch habs),
                     flipNone := fun _ => rfl,
                     firstGenLe := fun f2 hf2 => (nomatch hf2),
                     firstWf := fun f2 hf2 => (nomatch hf2),
                     timerMsg := fun ht => (nomatch ht),
                     revertUniq := h.revertUniq, revertLock := ?_,
                     genBound := h.genBound, fuClause := ?_ }
            · show s.pairsMatched + 1 + (s.pairsLeft - 1) = s.totalPairs
              have := h.sumEq
              omega
            · show (((s.board.set i { c with flip := true }).set i
                  ⟨c.name, true, true⟩).countP (fun x => !x.matched))
                ≤ 2 * (s.pairsLeft - 1) + 1
              omega
            · intro hst
              exfalso
              obtain ⟨f2, hf2, _⟩ := hst
              exact (nomatch hf2)
            · intro x y hmem
              exact absurd hmem (hnorev x y)
            · intro hncr i2 hfu
              exact absurd (hfu_main i2 hfu hncr) id
          · rw [if_neg hwin]
            refine { sumEq := ?_, uBound := ?_, uBoundStale := ?_,
                     flipSome := fun habs => (nomatch habs),
                     flipNone := fun _ => rfl,
                     firstGenLe := fun f2 hf2 => (nomatch hf2),
                     firstWf := fun f2 hf2 => (nomatch hf2),
                     timerMsg := h.timerMsg,
                     revertUniq := h.revertUniq, revertLock := ?_,
                     genBound := h.genBound, fuClause := ?_ }
            · show s.pairsMatched + 1 + (s.pairsLeft - 1) = s.totalPairs
              have := h.sumEq
              omega
            · show (((s.board.set i { c with flip := true }).set i
                  ⟨c.name, true, true⟩).countP (fun x => !x.matched))
                ≤ 2 * (s.pairsLeft - 1) + 1
              omega
            · intro hst
              exfalso
              obtain ⟨f2, hf2, _⟩ := hst
              exact (nomatch hf2)
            · intro x y hmem
              exact absurd hmem (hnorev x y)
            · intro hncr i2 hfu
              exact absurd (hfu_main i2 hfu hncr) id
      · rw [checkMatch_mismatch hfMid rfl hn]
        refine { sumEq := h.sumEq, uBound := ?_, uBoundStale := ?_,
                 flipSome := fun _ => ⟨f, hf⟩,
                 flipNone := ?_, firstGenLe := h.firstGenLe, firstWf := ?_,
                 timerMsg := h.timerMsg, revertUniq := ?_, revertLock := fun _ _ _ => rfl,
                 genBound := ?_, fuClause := ?_ }
        · show (s.board.set i { c with flip := true }).countP (fun x => !x.matched)
            ≤ 2 * s.pairsLeft + 1
          rw [hcnt1]
          exact hu1
        · intro hst
          show (s.board.set i { c with flip := true }).countP (fun x => !x.matched)
            ≤ 2 * s.pairsLeft
          rw [hcnt1]
          exact h.uBoundStale hst
        · intro habs
          exact absurd (hflip.symm.trans habs) (by simp)
        · intro f2 hf2 hg2
          injection hf.symm.trans hf2 with h2
          subst h2
          obtain ⟨hw1, hw2, hw3⟩ := h.firstWf f hf hg2
          have hne_fi : f.idx ≠ i := by
            intro heq
            apply hn
            rw [← hw3, heq, boardGet_eq hc]
          refine ⟨by simpa using hw1, ?_, ?_⟩
          · show (((s.board.set i { c with flip := true }).get? f.idx).getD
                ⟨"", false, false⟩).matched = false
            rw [List.get?_set_ne _ _ (fun h2 => hne_fi h2.symm)]
            exact hw2
          · show (((s.board.set i { c with flip := true }).get? f.idx).getD
                ⟨"", false, false⟩).name = f.name
            rw [List.get?_set_ne _ _ (fun h2 => hne_fi h2.symm)]
            exact hw3
        · show (Task.revert f ⟨s.gen, i, c.name⟩ :: s.tasks).countP isRevert ≤ 1
          rw [List.countP_cons]
          have hone : isRevert (Task.revert f ⟨s.gen, i, c.name⟩) = true := rfl
          rw [hone]
          have hc0 : s.tasks.countP isRevert = 0 := hcr0
          simp [hc0]
        · intro g hg
          rcases List.mem_cons.mp hg with h1 | h1
          · cases h1
          · exact h.genBound g h1
        · intro hncr i2 hfu
          left
          refine ⟨f, ⟨s.gen, i, c.name⟩, List.mem_cons_self _ _, ?_⟩
          by_cases hii : i2 = i
          · right
            exact ⟨rfl, hii⟩
          · have hncr0 : noCurReveal s := by
              intro hmem
              exact hncr (List.mem_cons_of_mem _ hmem)
            have hfu0 : fuAt s i2 = true := by
              unfold fuAt boardGet at hfu ⊢
              dsimp only at hfu
              rw [List.get?_set_ne _ _ (fun h2 => hii h2.symm)] at hfu
              exact hfu
            rcases h.fuClause hncr0 i2 hfu0 with ⟨x, y, hm2, _⟩ | ⟨_, f2, hf2, hfg2, hfi2⟩
            · exact absurd hm2 (hnorev x y)
            · left
              injection hf.symm.trans hf2 with h2
              subst h2
              exact ⟨hfg2, hfi2⟩

end MatchGame

namespace MatchGame

lemma inv_init : Inv initState := by
  refine { sumEq := rfl, uBound := by decide, uBoundStale := ?_,
           flipSome := ?_, flipNone := fun _ => rfl,
           firstGenLe := ?_, firstWf := ?_,
           timerMsg := fun _ => rfl, revertUniq := by decide,
           revertLock := ?_, genBound := ?_, fuClause := ?_ }
  · intro hst
    obtain ⟨f, hf, _⟩ := hst
    exact (nomatch hf)
  · intro habs
    exact (nomatch habs)
  · intro f hf
    exact (nomatch hf)
  · intro f hf
    exact (nomatch hf)
  · intro a b hm
    exact absurd hm (List.not_mem_nil _)
  · intro g hg
    exact absurd hg (List.not_mem_nil _)
  · intro _ i hfu
    have : fuAt initState i = false := by
      unfold fuAt boardGet initState
      simp
    rw [this] at hfu
    exact (nomatch hfu)

lemma inv_reachable (s : GameState) (hs : Reachable s) : Inv s := by
  induction hs with
  | refl => exact inv_init
  | tail h1 h2 ih =>
      cases h2 with
      | click i => exact inv_click i _ ih
      | tick h => exact inv_tick _ ih
      | fire t => exact inv_fire t _ (by assumption) ih
      | start diff pokes js => exact inv_start diff pokes js _ (by assumption) ih
      | reset h => exact inv_reset _ ih
      | power h => exact inv_power _ ih

end MatchGame

namespace MatchGame

lemma onCardClick_timer (i : Nat) (s : GameState) :
    (onCardClick i s).timerRunning = true → s.timerRunning = true := by
  unfold onCardClick checkMatch
  repeat' (first | split | dsimp only)
  all_goals intro h2
  all_goals first | exact h2 | exact (nomatch h2)

lemma fireTask_timer (t : Task) (s : GameState) :
    (fireTask t s).timerRunning = s.timerRunning := by
  unfold fireTask
  repeat' (first | split | dsimp only)
  all_goals rfl

lemma step_timer_on {s2 s3 : GameState} (hstep : Step s2 s3)
    (h3 : s3.timerRunning = true) :
    s2.timerRunning = true ∨ ∃ diff pokes js, s3 = startGame diff pokes js s2 := by
  cases hstep with
  | click i => exact Or.inl (onCardClick_timer i _ h3)
  | tick => exact Or.inl (by assumption)
  | fire t =>
      left
      rw [fireTask_timer] at h3
      exact h3
  | start diff pokes js => exact Or.inr ⟨diff, pokes, js, rfl⟩
  | reset h => exact (nomatch h3)
  | power h => exact Or.inl h3

lemma fu_mem (s : GameState) (i : Nat) (hi : i ∈ fuIdx s) : fuAt s i = true :=
  (List.mem_filter.mp hi).2

lemma fuIdx_nodup (s : GameState) : (fuIdx s).Nodup :=
  List.Nodup.filter _ (List.nodup_range _)

lemma fu_bound_of_inv {s : GameState} (h : Inv s) (hncr : noCurReveal s) :
    fuCount s ≤ 2 := by
  by_cases hrev : ∃ a b, Task.revert a b ∈ s.tasks
  · obtain ⟨a, b, hab⟩ := hrev
    refine length_le_two_of_subpair (fuIdx_nodup s) a.idx b.idx ?_
    intro x hx
    have hfu := fu_mem s x hx
    rcases h.fuClause hncr x hfu with ⟨a2, b2, hmem2, hcase⟩ | ⟨hc0, f, hf, hfg, hfi⟩
    · have heq : Task.revert a2 b2 = Task.revert a b :=
        countP_le_one_unique h.revertUniq hmem2 hab rfl rfl
      injection heq with h1 h2
      rcases hcase with ⟨_, hxa⟩ | ⟨_, hxb⟩
      · left
        rw [hxa, h1]
      · right
        rw [hxb, h2]
    · exfalso
      have hpos : 0 < s.tasks.countP isRevert :=
        List.countP_pos.mpr ⟨Task.revert a b, hab, rfl⟩
      have hc0' : s.tasks.countP isRevert = 0 := hc0
      omega
  · push_neg at hrev
    cases hfc : s.firstCard with
    | none =>
        refine Nat.le_trans (length_le_one_of_all_eq (fuIdx_nodup s) 0 ?_) (by omega)
        intro x hx
        have hfu := fu_mem s x hx
        rcases h.fuClause hncr x hfu with ⟨a2, b2, hmem2, _⟩ | ⟨_, f, hf, _, _⟩
        · exact absurd hmem2 (hrev a2 b2)
        · rw [hfc] at hf
          exact (nomatch hf)
    | some f =>
        refine Nat.le_trans (length_le_one_of_all_eq (fuIdx_nodup s) f.idx ?_) (by omega)
        intro x hx
        have hfu := fu_mem s x hx
        rcases h.fuClause hncr x hfu with ⟨a2, b2, hmem2, _⟩ | ⟨_, f2, hf2, _, hfi⟩
        · exact absurd hmem2 (hrev a2 b2)
        · rw [hfc] at hf2
          injection hf2 with h1
          rw [hfi, ← h1]

end MatchGame

/-- C1 counterexample: the power-up operation does not preserve the two-card
bound: in the reachable fresh easy round all eight cards are face-down and
unmatched, and one power-up activation step leaves all eight simultaneously
face-up and unmatched. -/
theorem c1_powerup_counterexample :
    MatchGame.Reachable (MatchGame.handlePowerUp MatchGame.sPlay) ∧
    MatchGame.Step MatchGame.sPlay (MatchGame.handlePowerUp MatchGame.sPlay) ∧
    MatchGame.fuCount MatchGame.sPlay = 0 ∧
    MatchGame.fuCount (MatchGame.handlePowerUp MatchGame.sPlay) = 8 ∧
    ¬ MatchGame.fuCount (MatchGame.handlePowerUp MatchGame.sPlay) ≤ 2 :=
  ⟨Relation.ReflTransGen.tail MatchGame.reach_sPlay
      (MatchGame.Step.power MatchGame.sPlay rfl),
   MatchGame.Step.power MatchGame.sPlay rfl,
   by decide, by decide, by decide⟩

/-- C1 amended: in every reachable state with no power-up reveal pending for
the current board, at most two cards are simultaneously face-up and not
matched; the bound is preserved by card clicks, match evaluation, mismatch
reverts, timer ticks, start and reset, but not by power-up activation, whose
reveal window shows every unmatched card. -/
theorem c1_faceup_bound_amended :
    ∀ s : MatchGame.GameState, MatchGame.Reachable s →
      MatchGame.noCurReveal s → MatchGame.fuCount s ≤ 2 :=
  fun s hs hncr => MatchGame.fu_bound_of_inv (MatchGame.inv_reachable s hs) hncr

/-- C1 amended witness: the round with two mismatched cards face-up meets the
bound. -/
theorem c1_faceup_bound_amended_witness :
    MatchGame.fuCount MatchGame.sMis ≤ 2 :=
  c1_faceup_bound_amended MatchGame.sMis MatchGame.reach_sMis (by decide)

namespace MatchGame

lemma cons_set_perm {α : Type _} : ∀ {t : List α} {m : Nat} {y a : α},
    t.get? m = some y → List.Perm (y :: t.set m a) (a :: t) := by
  intro t
  induction t with
  | nil =>
      intro m y a h
      exact (nomatch h)
  | cons b t' ih =>
      intro m y a h
      cases m with
      | zero =>
          injection h with h1
          rw [← h1]
          exact List.Perm.swap a b t'
      | succ k =>
          have h' : t'.get? k = some y := h
          exact ((List.Perm.swap b y _).trans
            (List.Perm.cons b (ih h'))).trans (List.Perm.swap a b t')

lemma swap_set_perm {α : Type _} : ∀ {l : List α} {i j : Nat} {x y : α},
    l.get? i = some x → l.get? j = some y →
    List.Perm ((l.set i y).set j x) l := by
  intro l
  induction l with
  | nil =>
      intro i j x y hx hy
      exact (nomatch hx)
  | cons a t ih =>
      intro i j x y hx hy
      cases i with
      | zero =>
          injection hx with hx1
          cases j with
          | zero =>
              rw [← hx1]
              exact List.Perm.refl _
          | succ m =>
              rw [← hx1]
              exact cons_set_perm hy
      | succ n =>
          cases j with
          | zero =>
              injection hy with hy1
              rw [← hy1]
              exact cons_set_perm hx
          | succ m =>
              exact List.Perm.cons a (ih hx hy)

lemma swapL_perm {α : Type _} (arr : List α) (i j : Nat) :
    List.Perm (swapL arr i j) arr := by
  unfold swapL
  split
  · exact swap_set_perm (by assumption) (by assumption)
  · exact List.Perm.refl _

lemma fyAux_perm {α : Type _} : ∀ (js : List Nat) (i : Nat) (arr : List α),
    List.Perm (fyAux arr i js) arr := by
  intro js
  induction js with
  | nil =>
      intro i arr
      cases i with
      | zero => exact List.Perm.refl _
      | succ n => exact List.Perm.refl _
  | cons j js' ih =>
      intro i arr
      cases i with
      | zero => exact List.Perm.refl _
      | succ n =>
          rw [fyAux]
          exact (ih n _).trans (swapL_perm arr (n + 1) j)

lemma shuffle_perm {α : Type _} (arr : List α) (js : List Nat) :
    List.Perm (shuffle arr js) arr :=
  fyAux_perm js (arr.length - 1) arr

lemma mem_generateDeck {q : Poke} {pokes : List Poke}
    (h : q ∈ generateDeck pokes) : q ∈ pokes := by
  unfold generateDeck at h
  rw [List.mem_flatMap] at h
  obtain ⟨p, hp, hq⟩ := h
  rcases List.mem_cons.mp hq with h1 | h1
  · rw [h1]
    exact hp
  · rw [List.mem_singleton.mp h1]
    exact hp

lemma countP_generateDeck : ∀ (pokes : List Poke),
    (pokes.map Poke.name).Nodup → ∀ {p : Poke}, p ∈ pokes →
    (generateDeck pokes).countP (fun q => q.name == p.name) = 2 := by
  intro pokes
  induction pokes with
  | nil =>
      intro _ p hp
      exact absurd hp (List.not_mem_nil _)
  | cons a t ih =>
      intro hnd p hp
      have hnd' : (t.map Poke.name).Nodup := (List.nodup_cons.mp hnd).2
      have hnota : Poke.name a ∉ t.map Poke.name := (List.nodup_cons.mp hnd).1
      have hga : generateDeck (a :: t) = a :: a :: generateDeck t := by
        simp [generateDeck]
      rw [hga, List.countP_cons, List.countP_cons]
      rcases List.mem_cons.mp hp with h1 | h1
      · subst h1
        have hz : (generateDeck t).countP (fun q => q.name == p.name) = 0 := by
          rw [List.countP_eq_zero]
          intro q hq hbe
          have hqt := mem_generateDeck hq
          have hname : q.name ∈ t.map Poke.name := List.mem_map_of_mem _ hqt
          rw [beq_iff_eq] at hbe
          rw [hbe] at hname
          exact hnota hname
        rw [hz]
        simp
      · have hne : (a.name == p.name) = false := by
          have hmem : p.name ∈ t.map Poke.name := List.mem_map_of_mem _ h1
          rw [beq_eq_false_iff_ne]
          intro hEq
          rw [hEq] at hnota
          exact hnota hmem
        rw [ih hnd' h1, hne]
        simp

end MatchGame

namespace MatchGame

lemma validFor_iff (i : Nat) (js : List Nat) :
    ValidFor i js ↔ js.length = i ∧
      ∀ k (h : k < js.length), js.get ⟨k, h⟩ ≤ i - k :=
  Iff.rfl

lemma head_eq_of_perm_cons {α : Type _} [DecidableEq α] {x y : α} {l : List α}
    (h : List.Perm (x :: l) (y :: l)) : x = y := by
  by_contra hne
  have hc := h.count_eq x
  rw [List.count_cons_self] at hc
  rw [List.count_cons_of_ne hne] at hc
  omega

lemma eq_of_perm_of_agree_tail {α : Type _} [DecidableEq α] {t arr : List α}
    (hperm : List.Perm t arr) (hag : ∀ k, 0 < k → t.get? k = arr.get? k) :
    t = arr := by
  cases arr with
  | nil => exact hperm.eq_nil
  | cons a arr' =>
      cases t with
      | nil =>
          exfalso
          have hlen := hperm.length_eq
          simp at hlen
      | cons x t' =>
          have ht' : t' = arr' := by
            apply List.ext_get?
            intro k
            exact hag (k + 1) (Nat.succ_pos k)
          subst ht'
          rw [head_eq_of_perm_cons hperm]

lemma swapL_get?_ne {α : Type _} (arr : List α) {i j k : Nat}
    (hik : k ≠ i) (hjk : k ≠ j) :
    (swapL arr i j).get? k = arr.get? k := by
  unfold swapL
  split
  · rw [List.get?_set_ne _ _ (fun h => hjk h.symm),
        List.get?_set_ne _ _ (fun h => hik h.symm)]
  · rfl

lemma swapL_get?_fst {α : Type _} {arr : List α} {i j : Nat} {x y : α}
    (hx : arr.get? i = some x) (hy : arr.get? j = some y)
    (hi : i < arr.length) :
    (swapL arr i j).get? i = some y := by
  unfold swapL
  rw [hx, hy]
  dsimp only
  by_cases hij : j = i
  · subst hij
    rw [List.set_set]
    rw [List.get?_set_eq_of_lt _ hi]
    exact hx.symm.trans hy
  · rw [List.get?_set_ne _ _ hij]
    rw [List.get?_set_eq_of_lt _ hi]

lemma fyAux_high {α : Type _} : ∀ (js : List Nat) (m : Nat) (arr : List α) (k : Nat),
    m < k → ValidFor m js → (fyAux arr m js).get? k = arr.get? k := by
  intro js
  induction js with
  | nil =>
      intro m arr k hk hv
      cases m with
      | zero => rfl
      | succ n => rfl
  | cons j js' ih =>
      intro m arr k hk hv
      obtain ⟨hlen, hbound⟩ := (validFor_iff m (j :: js')).mp hv
      cases m with
      | zero =>
          exfalso
          simp at hlen
      | succ n =>
          rw [fyAux]
          have hlen' : js'.length = n := by
            simp only [List.length_cons] at hlen
            omega
          have hv' : ValidFor n js' := by
            refine (validFor_iff n js').mpr ⟨hlen', ?_⟩
            intro k2 h2
            have hb := hbound (k2 + 1) (by simp only [List.length_cons]; omega)
            simpa [Nat.succ_sub_succ] using hb
          have hj : j ≤ n + 1 := by
            have hb := hbound 0 (by simp)
            simpa using hb
          rw [ih n _ k (by omega) hv']
          exact swapL_get?_ne arr (by omega) (by omega)

lemma fy_unbiased_aux {α : Type _} [DecidableEq α] : ∀ (i : Nat) (arr t : List α),
    arr.Nodup → i < arr.length → List.Perm t arr →
    (∀ k, i < k → t.get? k = arr.get? k) →
    ∃! js, ValidFor i js ∧ fyAux arr i js = t := by
  intro i
  induction i with
  | zero =>
      intro arr t hnd hi hperm hag
      have ht : t = arr := eq_of_perm_of_agree_tail hperm (fun k hk => hag k hk)
      refine ⟨[], ⟨(validFor_iff 0 []).mpr ⟨rfl, ?_⟩, ?_⟩, ?_⟩
      · intro k h
        simp at h
      · simp [fyAux, ht]
      · intro js2 hjs2
        have hlen0 : js2.length = 0 := ((validFor_iff 0 js2).mp hjs2.1).1
        exact List.length_eq_zero.mp hlen0
  | succ m ih =>
      intro arr t hnd hi hperm hag
      have hlen_t : t.length = arr.length := hperm.length_eq
      obtain ⟨y, hy⟩ : ∃ y, t.get? (m + 1) = some y :=
        ⟨t.get ⟨m + 1, by omega⟩, List.get?_eq_get (by omega)⟩
      have hymem : y ∈ arr := hperm.mem_iff.mp (List.get?_mem hy)
      obtain ⟨jf, hjf⟩ := List.get?_of_mem hymem
      have hjlt : jf < arr.length := lt_length_of_get? hjf
      have htnd : t.Nodup := (hperm.nodup_iff).mpr hnd
      have hjle : jf ≤ m + 1 := by
        by_contra hgt
        push_neg at hgt
        have h1 : t.get? jf = arr.get? jf := hag jf hgt
        rw [hjf] at h1
        have h2 := List.get?_inj (i := m + 1) (by omega) htnd (hy.trans h1.symm)
        omega
      have hperm2 : List.Perm t (swapL arr (m + 1) jf) :=
        hperm.trans (swapL_perm arr (m + 1) jf).symm
      have hnd2 : (swapL arr (m + 1) jf).Nodup :=
        ((swapL_perm arr (m + 1) jf).nodup_iff).mpr hnd
      have hlen2 : (swapL arr (m + 1) jf).length = arr.length :=
        swapL_length arr _ _
      have hm2 : m < (swapL arr (m + 1) jf).length := by omega
      have hx0 : arr.get? (m + 1) = some (arr.get ⟨m + 1, hi⟩) :=
        List.get?_eq_get hi
      have hswap_at : (swapL arr (m + 1) jf).get? (m + 1) = some y :=
        swapL_get?_fst hx0 hjf hi
      have hag2 : ∀ k, m < k → t.get? k = (swapL arr (m + 1) jf).get? k := by
        intro k hk
        by_cases hke : k = m + 1
        · subst hke
          rw [hy, hswap_at]
        · have hk2 : m + 1 < k := by omega
          rw [hag k hk2]
          rw [swapL_get?_ne arr (fun h => hke h) (by omega)]
      obtain ⟨js0, ⟨hv0, he0⟩, huniq0⟩ :=
        ih (swapL arr (m + 1) jf) t hnd2 hm2 hperm2 hag2
      obtain ⟨hv0l, hv0b⟩ := (validFor_iff m js0).mp hv0
      refine ⟨jf :: js0, ⟨(validFor_iff (m + 1) (jf :: js0)).mpr ⟨?_, ?_⟩, ?_⟩, ?_⟩
      · simp [hv0l]
      · intro k h
        cases k with
        | zero => simpa using hjle
        | succ k2 =>
            have hb := hv0b k2 (by simp only [List.length_cons] at h; omega)
            simpa [Nat.succ_sub_succ] using hb
      · rw [fyAux]
        exact he0
      · intro js2 hjs2
        obtain ⟨hv2, he2⟩ := hjs2
        obtain ⟨hv2l, hv2b⟩ := (validFor_iff (m + 1) js2).mp hv2
        cases js2 with
        | nil =>
            exfalso
            simp at hv2l
        | cons j2 js2' =>
            have hlen2' : js2'.length = m := by
              simp only [List.length_cons] at hv2l
              omega
            have hj2 : j2 ≤ m + 1 := by
              have hb := hv2b 0 (by simp)
              simpa using hb
            have hv2' : ValidFor m js2' := by
              refine (validFor_iff m js2').mpr ⟨hlen2', ?_⟩
              intro k2 hk2
              have hb := hv2b (k2 + 1) (by simp only [List.length_cons]; omega)
              simpa [Nat.succ_sub_succ] using hb
            rw [fyAux] at he2
            have hhigh : (fyAux (swapL arr (m + 1) j2) m js2').get? (m + 1)
                = (swapL arr (m + 1) j2).get? (m + 1) :=
              fyAux_high js2' m _ (m + 1) (by omega) hv2'
            have hj2lt : j2 < arr.length := by omega
            have hz : arr.get? j2 = some (arr.get ⟨j2, hj2lt⟩) :=
              List.get?_eq_get hj2lt
            have hfst : (swapL arr (m + 1) j2).get? (m + 1)
                = some (arr.get ⟨j2, hj2lt⟩) :=
              swapL_get?_fst hx0 hz hi
            have hyz : arr.get ⟨j2, hj2lt⟩ = y := by
              have h1 : t.get? (m + 1) = some (arr.get ⟨j2, hj2lt⟩) := by
                rw [← he2, hhigh, hfst]
              rw [hy] at h1
              injection h1 with h2
              exact h2.symm
            have hj2jf : j2 = jf := by
              have he : arr.get? j2 = arr.get? jf := by
                rw [hz, hjf, hyz]
              exact List.get?_inj hj2lt hnd he
            subst hj2jf
            have hjs2' : js2' = js0 := huniq0 js2' ⟨hv2', he2⟩
            rw [hjs2']

lemma deckInstances_nodup (pokes : List Poke) : (deckInstances pokes).Nodup := by
  have h1 : (deckInstances pokes).map Prod.fst
      = List.range (generateDeck pokes).length := List.enum_map_fst _
  have h2 : ((deckInstances pokes).map Prod.fst).Nodup := by
    rw [h1]
    exact List.nodup_range _
  exact List.Nodup.of_map _ h2

lemma deckInstances_length (pokes : List Poke) :
    (deckInstances pokes).length = 2 * pokes.length := by
  unfold deckInstances
  rw [List.enum_length, generateDeck_length]

end MatchGame

/-- C8: for a round built from `n` fetched pair templates with pairwise
distinct names (`getRandomIds` draws distinct ids), the shuffled deck has
exactly `2 * n` cards, each display name occurs on exactly two of them, and
the shuffled order is a permutation of the generated deck; moreover the
shuffle is unbiased: over the rendered card instances, every permutation of
the deck is produced by exactly one valid random-index stream, and the
streams are equiprobable because each entry is drawn uniformly. -/
theorem c8_deck_shuffle :
    ∀ (pokes : List MatchGame.Poke) (js : List Nat),
      0 < pokes.length → (pokes.map MatchGame.Poke.name).Nodup →
      (MatchGame.shuffle (MatchGame.generateDeck pokes) js).length
          = 2 * pokes.length ∧
      (∀ p ∈ pokes,
        (MatchGame.shuffle (MatchGame.generateDeck pokes) js).countP
          (fun q => q.name == p.name) = 2) ∧
      List.Perm (MatchGame.shuffle (MatchGame.generateDeck pokes) js)
        (MatchGame.generateDeck pokes) ∧
      (∀ t, List.Perm t (MatchGame.deckInstances pokes) →
        ∃! stream, MatchGame.ValidJs (MatchGame.deckInstances pokes) stream ∧
          MatchGame.shuffle (MatchGame.deckInstances pokes) stream = t) := by
  intro pokes js hn hnd
  refine ⟨?_, ?_, MatchGame.shuffle_perm _ _, ?_⟩
  · rw [MatchGame.shuffle_length, MatchGame.generateDeck_length]
  · intro p hp
    rw [(MatchGame.shuffle_perm _ js).countP_eq]
    exact MatchGame.countP_generateDeck pokes hnd hp
  · intro t ht
    have hlen : (MatchGame.deckInstances pokes).length = 2 * pokes.length :=
      MatchGame.deckInstances_length pokes
    have hag : ∀ k, (MatchGame.deckInstances pokes).length - 1 < k →
        t.get? k = (MatchGame.deckInstances pokes).get? k := by
      intro k hk
      have hkk : (MatchGame.deckInstances pokes).length ≤ k := by omega
      rw [List.get?_eq_none.mpr (by rw [ht.length_eq]; exact hkk),
          List.get?_eq_none.mpr hkk]
    exact MatchGame.fy_unbiased_aux ((MatchGame.deckInstances pokes).length - 1)
      (MatchGame.deckInstances pokes) t (MatchGame.deckInstances_nodup pokes)
      (by omega) ht hag

/-- C8 witness: the four easy-mode templates give an eight-card deck with
each name twice under the identity stream. -/
theorem c8_deck_shuffle_witness :
    0 < MatchGame.pokes4.length ∧
    (MatchGame.pokes4.map MatchGame.Poke.name).Nodup ∧
    (MatchGame.shuffle (MatchGame.generateDeck MatchGame.pokes4)
        MatchGame.jsId7).length = 2 * MatchGame.pokes4.length := by
  refine ⟨by decide, by decide, ?_⟩
  exact (c8_deck_shuffle MatchGame.pokes4 MatchGame.jsId7
    (by decide) (by decide)).1

namespace MatchGame

lemma tickJ_loss {s : JState} (h1 : s.timeLeft ≤ 1) :
    tickJ s = endGameJ false { s with timeLeft := s.timeLeft - 1 } := by
  unfold tickJ
  dsimp only
  rw [if_pos (by omega)]

lemma tickJ_run {s : JState} (h1 : ¬ s.timeLeft - 1 ≤ 0) :
    tickJ s = { s with timeLeft := s.timeLeft - 1 } := by
  unfold tickJ
  dsimp only
  rw [if_neg h1]

lemma tickNJ_reach (n : Nat) : ∀ (s : JState) (h : Nat), ReachableA s →
    h ∈ s.intervals → (n : Int) < s.timeLeft →
    ReachableA (tickNJ n s) ∧ (tickNJ n s).intervals = s.intervals ∧
    (tickNJ n s).timer = s.timer ∧
    (tickNJ n s).timeLeft = s.timeLeft - (n : Int) := by
  induction n with
  | zero =>
      intro s h hr hm hlt
      refine ⟨hr, rfl, rfl, ?_⟩
      simp [tickNJ]
  | succ k ih =>
      intro s h hr hm hlt
      have hne : ¬ s.timeLeft - 1 ≤ 0 := by
        push_cast at hlt
        omega
      have ht := tickJ_run hne
      have hstep : AStep s (tickJ s) := AStep.tick h s hm
      have hr1 : ReachableA (tickJ s) := Relation.ReflTransGen.tail hr hstep
      have hm1 : h ∈ (tickJ s).intervals := by
        rw [ht]
        exact hm
      have hlt1 : (k : Int) < (tickJ s).timeLeft := by
        rw [ht]
        dsimp only
        push_cast at hlt ⊢
        omega
      obtain ⟨h1, h2, h3, h4⟩ := ih (tickJ s) h hr1 hm1 hlt1
      have he : tickNJ (k + 1) s = tickNJ k (tickJ s) := rfl
      refine ⟨by rw [he]; exact h1, ?_, ?_, ?_⟩
      · rw [he, h2, ht]
      · rw [he, h3, ht]
      · rw [he, h4, ht]
        dsimp only
        push_cast
        omega

lemma reach_sRaceC : ReachableA sRaceC := by
  have h1 : AStep initJState (startClickJ initJState) :=
    AStep.pressStart _ rfl
  have h2 : AStep (startClickJ initJState) sRaceA :=
    AStep.pressStart _ rfl
  have h3 : AStep sRaceA (startResume1 "easy" sRaceA) :=
    AStep.resumeFetch "easy" _ (by decide)
  have h4 : AStep (startResume1 "easy" sRaceA) sRaceB :=
    AStep.resumeFetch "easy" _ (by decide)
  have h5 : AStep sRaceB (startResume2 4 pokes4 jsId7 sRaceB) :=
    AStep.resumeDeck 4 pokes4 jsId7 _ (by decide) (by decide)
  have h6 : AStep (startResume2 4 pokes4 jsId7 sRaceB) sRaceC :=
    AStep.resumeDeck 4 pokes4 jsId7 _ (by decide) (by decide)
  exact Relation.ReflTransGen.tail
    (Relation.ReflTransGen.tail
      (Relation.ReflTransGen.tail
        (Relation.ReflTransGen.tail
          (Relation.ReflTransGen.tail (Relation.ReflTransGen.single h1) h2)
          h3)
        h4)
      h5)
    h6

lemma reach_sRaceLost : ReachableA sRaceLost := by
  obtain ⟨hr, hint, htm, htl⟩ :=
    tickNJ_reach 59 sRaceC 0 reach_sRaceC (by decide) (by decide)
  refine Relation.ReflTransGen.tail hr (AStep.tick 0 _ ?_)
  rw [hint]
  decide

end MatchGame

/-- C7 counterexample: the loss signal can fire a second time.  `startGame`
is async and disables the Start button only after its first `await`
(part_000 line 212 vs 203), so two overlapping Start clicks are accepted and
each completed run installs a countdown interval, while the `timer` variable
keeps only the last handle.  In the reachable raced round `sRaceLost` the
round is already Lost - the sixtieth firing ran `endGame(false)`, which
cleared only the stored handle - yet interval `0` is still live, its next
firing is again the `endGame(false)` branch (a second loss signal), and it
stays live afterwards, re-firing forever. -/
theorem c7_leaked_interval_counterexample :
    MatchGame.ReachableA MatchGame.sRaceLost ∧
    MatchGame.sRaceLost.message = some false ∧
    MatchGame.sRaceLost.lockBoard = true ∧
    MatchGame.sRaceLost.intervals = [0] ∧
    MatchGame.AStep MatchGame.sRaceLost (MatchGame.tickJ MatchGame.sRaceLost) ∧
    MatchGame.tickJ MatchGame.sRaceLost
      = MatchGame.endGameJ false
          { MatchGame.sRaceLost with
              timeLeft := MatchGame.sRaceLost.timeLeft - 1 } ∧
    (MatchGame.tickJ MatchGame.sRaceLost).message = some false ∧
    (MatchGame.tickJ MatchGame.sRaceLost).intervals = [0] :=
  ⟨MatchGame.reach_sRaceLost, by decide, by decide, by decide,
   MatchGame.AStep.tick 0 _ (by decide), by decide, by decide, by decide⟩

/-- C7 amended: whenever a live countdown interval fires with at most one
second left, the round ends as a loss - banner shown, board locked,
`clearInterval(timer)` run; if the firing interval is the only live one and
is the one stored in `timer` (which holds for a round started by a single,
non-overlapping `startGame` run), no live interval remains, so the loss
signal fires exactly once; and a state with no live interval gains one only
through the final block of a `startGame` run.  Overlapping `startGame` runs,
however, leak intervals that `endGame` does not clear, and such a leaked
interval re-fires `endGame(false)` every second (see the counterexample). -/
theorem c7_timeout_loss_amended :
    (∀ s : MatchGame.JState, s.timeLeft ≤ 1 →
      MatchGame.tickJ s
        = MatchGame.endGameJ false { s with timeLeft := s.timeLeft - 1 } ∧
      (MatchGame.tickJ s).message = some false ∧
      (MatchGame.tickJ s).lockBoard = true) ∧
    (∀ (s : MatchGame.JState) (h : Nat), s.timeLeft ≤ 1 → s.timer = some h →
      s.intervals = [h] → (MatchGame.tickJ s).intervals = []) ∧
    (∀ s2 s3 : MatchGame.JState, MatchGame.AStep s2 s3 → s2.intervals = [] →
      s3.intervals = [] ∨
      ∃ n pokes js, s3 = MatchGame.startResume2 n pokes js s2) := by
  refine ⟨?_, ?_, ?_⟩
  · intro s h1
    refine ⟨MatchGame.tickJ_loss h1, ?_, ?_⟩
    · rw [MatchGame.tickJ_loss h1]
      rfl
    · rw [MatchGame.tickJ_loss h1]
      rfl
  · intro s h h1 htm hiv
    rw [MatchGame.tickJ_loss h1]
    unfold MatchGame.endGameJ
    dsimp only
    rw [htm]
    dsimp only
    rw [hiv, List.erase_cons_head]
  · intro s2 s3 hst hemp
    cases hst with
    | pressStart => left; exact hemp
    | resumeFetch diff => left; exact hemp
    | resumeDeck n pokes js => right; exact ⟨n, pokes, js, rfl⟩
    | tick h2 =>
        exfalso
        have hm : h2 ∈ s2.intervals := by assumption
        rw [hemp] at hm
        exact absurd hm (List.not_mem_nil _)
    | reset =>
        left
        unfold MatchGame.resetGameJ
        dsimp only
        cases htm2 : s2.timer with
        | none => exact hemp
        | some hdl => simp [hemp]

/-- C7 amended witness: the single-run easy round with one second left loses
on the next firing and no live interval remains. -/
theorem c7_timeout_loss_amended_witness :
    MatchGame.sSingleRun.timeLeft ≤ 1 ∧
    (MatchGame.tickJ MatchGame.sSingleRun).message = some false ∧
    (MatchGame.tickJ MatchGame.sSingleRun).lockBoard = true ∧
    (MatchGame.tickJ MatchGame.sSingleRun).intervals = [] :=
  ⟨by decide,
   (c7_timeout_loss_amended.1 MatchGame.sSingleRun (by decide)).2.1,
   (c7_timeout_loss_amended.1 MatchGame.sSingleRun (by decide)).2.2,
   c7_timeout_loss_amended.2.1 MatchGame.sSingleRun 0 (by decide) (by decide)
     (by decide)⟩
